import Mathlib

/-!
Shallow embedding of the hubfly-builder core (Go) in Lean 4, together with
theorems checking the natural-language specification against the code.

Modelling conventions, used throughout:
* Go strings are Lean `String`s; byte-level operations are modelled on the
  character list `String.data` (the sources only treat ASCII specially, where
  bytes and characters agree).
* `strings.TrimSpace` is modelled by `goTrim` (ASCII whitespace; Go also trims
  the rare non-ASCII Unicode spaces, which none of the claims exercise).
* Go maps are modelled as association lists carrying an iteration order;
  properties are proved for every order, covering Go's nondeterministic one.
* The file system seen by the detector is abstracted as a `FS` record whose
  fields model the outcomes of `os.Stat`, `os.ReadFile`, `os.ReadDir`,
  `json.Unmarshal` of package.json, and `filepath.WalkDir`.
-/

namespace Hubfly

/-- Character class trimmed by `strings.TrimSpace` (ASCII part). -/
def goIsSpace (c : Char) : Bool :=
  c == ' ' || c == '\t' || c == '\n' || c == '\x0b' || c == '\x0c' || c == '\r'

/-- Trim trailing whitespace of a character list. -/
def trimRightChars (l : List Char) : List Char :=
  (l.reverse.dropWhile goIsSpace).reverse

/-- Trim leading and trailing whitespace of a character list. -/
def goTrimChars (l : List Char) : List Char :=
  trimRightChars (l.dropWhile goIsSpace)

/-- Model of Go `strings.TrimSpace`. -/
def goTrim (s : String) : String := ⟨goTrimChars s.data⟩

/-- Model of Go `strings.HasPrefix`. -/
def strHasPrefix (s p : String) : Bool := p.data.isPrefixOf s.data

/-- Model of Go `strings.HasSuffix`. -/
def strHasSuffix (s p : String) : Bool := p.data.isSuffixOf s.data

/-- Executable infix test on character lists (`n` occurs inside `h`). -/
def infixOf (n : List Char) : List Char → Bool
  | [] => n.isEmpty
  | c :: t => n.isPrefixOf (c :: t) || infixOf n t

/-- Model of Go `strings.Contains`. -/
def strContains (hay needle : String) : Bool := infixOf needle.data hay.data

/-- Model of Go `strings.ContainsRune` / single-character `strings.Contains`. -/
def containsChar (s : String) (c : Char) : Bool := s.data.any (· == c)

/-- Model of Go `strings.ToUpper` (ASCII case mapping). -/
def goToUpper (s : String) : String := ⟨s.data.map Char.toUpper⟩

/-- Model of Go `strings.ToLower` (ASCII case mapping). -/
def goToLower (s : String) : String := ⟨s.data.map Char.toLower⟩

/-- Byte-wise (here: character-wise) lexicographic `≤` on strings, the order
used by Go's `sort.Strings` and `<` on strings. -/
def lexLe : List Char → List Char → Bool
  | [], _ => true
  | _ :: _, [] => false
  | a :: as, b :: bs => if a = b then lexLe as bs else decide (a.toNat < b.toNat)

/-- Lexicographic order on strings as a relation (model of Go string `<=`). -/
def strLeP (a b : String) : Prop := lexLe a.data b.data = true

instance : DecidableRel strLeP := fun a b => instDecidableEqBool (lexLe a.data b.data) true

/-- Strict lexicographic order on strings. -/
def strLtP (a b : String) : Prop := strLeP a b ∧ a ≠ b

/-- Model of Go `sort.Strings` (ascending byte-wise order). -/
def sortStrings (l : List String) : List String := List.insertionSort strLeP l

/-- Model of Go `filepath.Join` for the clean relative arguments the sources
use (empty first argument returns the second unchanged). -/
def joinPath (dir name : String) : String :=
  if dir = "" then name else dir ++ "/" ++ name

/-- Model of Go `strings.Join`. -/
def joinSep (sep : String) : List String → String
  | [] => ""
  | x :: xs =>
    match xs with
    | [] => x
    | _ :: _ => x ++ sep ++ joinSep sep xs

/-! ## Allowlist matcher (`internal/allowlist/allowlist.go`) -/

/-- Character class `[A-Za-z0-9:._/\-]` that each wildcard `*` expands to in
`wildcardMatch` (see the regular expression built there). -/
def isSafeChar (c : Char) : Bool :=
  ('A' ≤ c && c ≤ 'Z') || ('a' ≤ c && c ≤ 'z') || ('0' ≤ c && c ≤ '9') ||
    c == ':' || c == '.' || c == '_' || c == '/' || c == '-'

/-- Model of Go `strings.Split(s, "*")` on the character list. -/
def splitOnStar : List Char → List (List Char)
  | [] => [[]]
  | c :: rest =>
    match splitOnStar rest with
    | [] => [[]]
    | h :: t => if c = '*' then [] :: h :: t else (c :: h) :: t

/-- Matcher for the anchored regular expression `^Q(p₀)C⁺Q(p₁)C⁺…Q(pₙ)$` that
`wildcardMatch` builds from the pattern's fragments around each `*`
(`Q` = `regexp.QuoteMeta`, `C` = the safe character class). The segment
standing for a `*` is guessed by its length `n+1`. -/
def matchParts : List (List Char) → List Char → Bool
  | [], v => v.isEmpty
  | [p], v => v == p
  | p :: q :: ps, v =>
    p.isPrefixOf v &&
      (List.range (v.length - p.length)).any fun n =>
        (((v.drop p.length).take (n + 1)).all isSafeChar) &&
          matchParts (q :: ps) ((v.drop p.length).drop (n + 1))

/-- Model of `wildcardMatch` from `allowlist.go`: the pattern is split on `*`,
the fragments are quoted, each `*` becomes `[A-Za-z0-9:._/\-]+`, and the value
is matched end-to-end (`^…$`); the built expression always compiles, so the
`err == nil` conjunct of the source is always true. -/
def wildcardMatch (pattern value : String) : Bool :=
  matchParts (splitOnStar pattern.data) value.data

/-- Model of `IsCommandAllowed` from `allowlist.go`. -/
def IsCommandAllowed (cmd : String) (allowed : List String) : Bool :=
  let c := goTrim cmd
  if c = "" then false
  else
    allowed.any fun a =>
      let p := goTrim a
      if p = "" then false
      else p == c || (containsChar p '*' && wildcardMatch p c)

/-- Declarative reading of the wildcard regular expression: the value splits
into the literal fragments interleaved with non-empty runs of safe
characters, one run per `*`. -/
def SegsSpec : List (List Char) → List Char → Prop
  | [], v => v = []
  | [p], v => v = p
  | p :: q :: ps, v =>
    ∃ w rest, v = p ++ w ++ rest ∧ w ≠ [] ∧ (∀ c ∈ w, isSafeChar c = true) ∧
      SegsSpec (q :: ps) rest

/-- Declarative reading of the spec's `isAllowed` operation: the trimmed
command is non-empty and equals some trimmed non-empty pattern, or matches a
trimmed pattern containing `*` with each `*` standing for one or more safe
characters. -/
def AllowedSpec (cmd : String) (ps : List String) : Prop :=
  goTrim cmd ≠ "" ∧
    ∃ a ∈ ps, goTrim a ≠ "" ∧
      (goTrim a = goTrim cmd ∨
        ('*' ∈ (goTrim a).data ∧
          SegsSpec (splitOnStar (goTrim a).data) (goTrim cmd).data))

/-! ## File-system abstraction for the detector and the planner -/

/-- Parsed `package.json` as the detector reads it (`nodePackageJSON` in
`autodetect.go`): the scripts map (association list in iteration order) and
the `packageManager` field. -/
structure NodePackageJSON where
  scripts : List (String × String)
  packageManager : String

/-- One directory entry as returned by `os.ReadDir`. -/
structure DirEntry where
  name : String
  isDir : Bool

/-- One regular file as visited by `filepath.WalkDir` below a repository
root: the directory components of its location relative to the root (empty
for the root itself), its base name, and its content. -/
structure WalkFile where
  dirComps : List String
  name : String
  content : String

/-- Abstraction of the file-system queries the sources perform: `fileExists`
models a successful `os.Stat`, `readFile` models `os.ReadFile`, `readDir`
models `os.ReadDir`, `packageJSON` models reading and unmarshalling a
`package.json`, and `walkFiles` lists the regular files below a root in
`filepath.WalkDir` order (pruning of excluded directories is applied by the
functions that consume it, from the walked files' directory components). -/
structure FS where
  fileExists : String → Bool
  readFile : String → Option String
  readDir : String → Option (List DirEntry)
  packageJSON : String → Option NodePackageJSON
  walkFiles : String → List WalkFile

/-- File system with nothing in it. -/
def emptyFS : FS :=
  ⟨fun _ => false, fun _ => none, fun _ => none, fun _ => none, fun _ => []⟩

/-- Model of `fileExists(filepath.Join(repoPath, name))`, the pervasive idiom
of `autodetect.go`. -/
def fileExistsIn (fs : FS) (repoPath name : String) : Bool :=
  fs.fileExists (joinPath repoPath name)

/-! ## Runtime detector (`internal/autodetect/autodetect.go`) -/

/-- Per-stage allowlists (`AllowedCommands` in `allowlist.go`). -/
structure AllowedCommands where
  prebuild : List String
  build : List String
  run : List String

/-- Model of `isPythonProject`. -/
def isPythonProject (fs : FS) (repoPath : String) : Bool :=
  if repoPath = "" then false
  else
    fileExistsIn fs repoPath "requirements.txt" ||
      fileExistsIn fs repoPath "pyproject.toml" ||
      fileExistsIn fs repoPath "setup.py" ||
      fileExistsIn fs repoPath "Pipfile"

/-- Model of `DetectRuntime`: the first matching marker file decides the
runtime and version. -/
def DetectRuntime (fs : FS) (repoPath : String) : String × String :=
  if fileExistsIn fs repoPath "bun.lock" then ("bun", "1.2")
  else if fileExistsIn fs repoPath "package.json" then ("node", "22")
  else if isPythonProject fs repoPath then ("python", "3.9")
  else if fileExistsIn fs repoPath "go.mod" then ("go", "1.18")
  else if fileExistsIn fs repoPath "composer.json" then ("php", "8")
  else if fileExistsIn fs repoPath "pom.xml" || fileExistsIn fs repoPath "build.gradle" ||
      fileExistsIn fs repoPath "build.gradle.kts" then ("java", "17")
  else if fileExistsIn fs repoPath "index.html" then ("static", "latest")
  else ("unknown", "")

/-- Model of `pickAllowed`: the preferred command if allowed, else the first
raw allowlist pattern, else the empty string. -/
def pickAllowed (preferred : String) (allowed : List String) : String :=
  if IsCommandAllowed preferred allowed then preferred
  else
    match allowed with
    | [] => ""
    | a :: _ => a

/-- Model of `pickFirstAllowed`: the first candidate that the allowlist
accepts, else the empty string. -/
def pickFirstAllowed (candidates allowed : List String) : String :=
  match candidates.find? (fun c => IsCommandAllowed c allowed) with
  | some c => c
  | none => ""

/-- Model of the `addCandidate` closures of `autodetect.go`: append a
non-empty command not already present. -/
def addCandidate (cs : List String) (c : String) : List String :=
  if c = "" then cs else if c ∈ cs then cs else cs ++ [c]

/-! ### Go project detection -/

/-- Directory names excluded from the main-package walk
(`discoverGoMainEntrypoints`). -/
def goExcludedDirs : List String := [".git", "vendor", "node_modules"]

/-- Extensional model of the walk's pruning: a file is skipped when any
directory component on its path below the root is hidden (dot-prefixed after
trimming) or excluded; `filepath.SkipDir` in the source prunes exactly the
subtrees rooted at such directories. -/
def goDirPruned (comps : List String) : Bool :=
  comps.any fun d =>
    let n := goTrim d
    strHasPrefix n "." || goExcludedDirs.contains n

/-- Entry point denotation of a walked file's directory: `.` for the root,
else `./<relative path>` (`filepath.ToSlash` of the relative directory). -/
def goEntrypointOf (comps : List String) : String :=
  if comps.isEmpty then "." else "./" ++ joinSep "/" comps

/-- Keep the first occurrence of each string, in order (the `seen` set of the
source). -/
def dedupKeepFirst (l : List String) : List String :=
  l.foldl (fun acc s => if s ∈ acc then acc else acc ++ [s]) []

/-- Sort strings by their lower-cased form (`sort.Slice` with a
`strings.ToLower` comparison; ties between names equal up to case are broken
by input order here, one of the orders the unstable Go sort may produce). -/
def sortByLower (l : List String) : List String :=
  List.insertionSort (fun a b => strLeP (goToLower a) (goToLower b)) l

/-- Model of `discoverGoMainEntrypoints`: directories (relative to the root)
holding a non-test `.go` file whose content mentions `package main` and
`func main(`, outside pruned subtrees, de-duplicated in walk order and sorted
case-insensitively. -/
def discoverGoMainEntrypoints (fs : FS) (repoPath : String) : List String :=
  let eps := (fs.walkFiles repoPath).filterMap fun f =>
    if goDirPruned f.dirComps then none
    else
      let name := goTrim f.name
      if strHasSuffix name ".go" && !strHasSuffix name "_test.go" &&
          strContains f.content "package main" && strContains f.content "func main(" then
        some (goEntrypointOf f.dirComps)
      else none
  sortByLower (dedupKeepFirst eps)

/-- Model of `detectGoEntrypoint`: prefer `./cmd/…`, then the root, then the
first discovery. -/
def detectGoEntrypoint (fs : FS) (repoPath : String) : String :=
  if repoPath = "" then ""
  else
    let entrypoints := discoverGoMainEntrypoints fs repoPath
    if entrypoints.isEmpty then ""
    else
      match entrypoints.find? (fun e => strHasPrefix e "./cmd/") with
      | some e => e
      | none =>
        match entrypoints.find? (fun e => e = ".") with
        | some e => e
        | none => entrypoints.headD ""

/-- Model of `detectGoCommands`. -/
def detectGoCommands (fs : FS) (repoPath : String) (allowed : AllowedCommands) :
    String × String × String :=
  let prebuildCandidates :=
    if repoPath ≠ "" && fileExistsIn fs repoPath "go.work" then
      ["go work sync", "go mod download"]
    else ["go mod download"]
  let entrypoint := detectGoEntrypoint fs repoPath
  let (buildCandidates, runCandidates) :=
    if entrypoint = "." then
      (["go build -o app ."] ++ ["go build ./..."],
       ["./app"] ++ ["go run .", "go run main.go"])
    else if strHasPrefix entrypoint "./cmd/" then
      (["go build -o app " ++ entrypoint] ++ ["go build ./..."],
       ["./app", "go run " ++ entrypoint] ++ ["go run .", "go run main.go"])
    else if strHasPrefix entrypoint "./" then
      (["go build -o app " ++ entrypoint] ++ ["go build ./..."],
       ["./app", "go run " ++ entrypoint] ++ ["go run .", "go run main.go"])
    else (["go build ./..."], ["go run .", "go run main.go"])
  (pickFirstAllowed prebuildCandidates allowed.prebuild,
   pickFirstAllowed buildCandidates allowed.build,
   pickFirstAllowed runCandidates allowed.run)

/-! ### Python project detection -/

/-- Model of `isPythonIdentifier`. -/
def isPythonIdentifier (value : String) : Bool :=
  let v := goTrim value
  match v.data with
  | [] => false
  | c0 :: rest =>
    (c0 == '_' || ('a' ≤ c0 && c0 ≤ 'z') || ('A' ≤ c0 && c0 ≤ 'Z')) &&
      rest.all fun c =>
        c == '_' || ('a' ≤ c && c ≤ 'z') || ('A' ≤ c && c ≤ 'Z') || ('0' ≤ c && c ≤ '9')

/-- Model of Go `strings.TrimSuffix`. -/
def trimSuffixStr (s suffix : String) : String :=
  if strHasSuffix s suffix then ⟨s.data.take (s.data.length - suffix.data.length)⟩ else s

/-- Model of Go `strings.Trim(s, "/")`. -/
def trimSlashes (s : String) : String :=
  ⟨((s.data.dropWhile (· == '/')).reverse.dropWhile (· == '/')).reverse⟩

/-- Model of Go `strings.Split` with a single-character separator. -/
def splitOnCharList (sep : Char) : List Char → List (List Char)
  | [] => [[]]
  | c :: rest =>
    match splitOnCharList sep rest with
    | [] => [[]]
    | h :: t => if c = sep then [] :: h :: t else (c :: h) :: t

/-- Model of `pythonModuleFromPath`: strip `.py`, trim slashes, split on `/`
and join the (all-identifier) parts with dots; empty on any invalid part. -/
def pythonModuleFromPath (path : String) : String :=
  let p := goTrim path
  let p := trimSuffixStr p ".py"
  let p := trimSlashes p
  if p = "" then ""
  else
    let p : String := ⟨p.data.map fun c => if c = '\\' then '/' else c⟩
    let parts := (splitOnCharList '/' p.data).map fun l => (⟨l⟩ : String)
    let step := parts.foldl
      (fun (acc : Option (List String)) part =>
        match acc with
        | none => none
        | some ms =>
          let part := goTrim part
          if part = "" then some ms
          else if isPythonIdentifier part then some (ms ++ [part]) else none)
      (some [])
    match step with
    | none => ""
    | some ms => joinSep "." ms

/-- Model of `detectAssignedName`: the first line containing `=` and the
constructor and whose left-hand side (trimmed prefix before the first `=`) is
a valid Python identifier yields that identifier; else the fallback. -/
def detectAssignedName (source constructor fallback : String) : String :=
  let lines := (splitOnCharList '\n' source.data).map fun l => (⟨l⟩ : String)
  let hit := lines.findSome? fun line =>
    let trimmed := goTrim line
    if strContains trimmed "=" && strContains trimmed constructor then
      let left : String := ⟨goTrimChars (trimmed.data.takeWhile (· ≠ '='))⟩
      if isPythonIdentifier left then some left else none
    else none
  match hit with
  | some l => l
  | none => fallback

/-- Model of `detectFastAPIRunCommand`. -/
def detectFastAPIRunCommand (fs : FS) (repoPath : String) : String :=
  if repoPath = "" then ""
  else
    let candidates := ["main.py", "app.py", "server.py", "src/main.py", "src/app.py", "src/server.py"]
    let hit := candidates.findSome? fun path =>
      if !fileExistsIn fs repoPath path then none
      else
        match fs.readFile (joinPath repoPath path) with
        | none => none
        | some text =>
          let lower := goToLower text
          if !(strContains lower "fastapi" || strContains lower "starlette") then none
          else
            let appName := detectAssignedName text "FastAPI(" ""
            let appName := if appName = "" then detectAssignedName text "Starlette(" "app" else appName
            let appName := if appName = "" then "app" else appName
            let module := pythonModuleFromPath path
            if module = "" then none
            else some ("uvicorn " ++ module ++ ":" ++ appName ++ " --host 0.0.0.0 --port $\x7bPORT:-8000\x7d")
    hit.getD ""

/-- Model of `detectASGIApplicationRunCommand`. -/
def detectASGIApplicationRunCommand (fs : FS) (repoPath : String) : String :=
  if repoPath = "" then ""
  else
    let candidates := ["asgi.py", "src/asgi.py"]
    let hit := candidates.findSome? fun path =>
      if !fileExistsIn fs repoPath path then none
      else
        match fs.readFile (joinPath repoPath path) with
        | none => none
        | some text =>
          let lower := goToLower text
          if !strContains lower "application" then none
          else
            let module := pythonModuleFromPath path
            if module = "" then none
            else some ("uvicorn " ++ module ++ ":application --host 0.0.0.0 --port $\x7bPORT:-8000\x7d")
    hit.getD ""

/-- Model of `detectGunicornRunCommand`. -/
def detectGunicornRunCommand (fs : FS) (repoPath : String) : String :=
  if repoPath = "" then ""
  else
    let candidates := ["wsgi.py", "app.py", "main.py", "server.py", "src/wsgi.py", "src/app.py"]
    let hit := candidates.findSome? fun path =>
      if !fileExistsIn fs repoPath path then none
      else
        match fs.readFile (joinPath repoPath path) with
        | none => none
        | some text =>
          let lower := goToLower text
          let module := pythonModuleFromPath path
          if module = "" then none
          else if strContains lower "flask" then
            let appName := detectAssignedName text "Flask(" "app"
            let appName := if appName = "" then "app" else appName
            some ("gunicorn " ++ module ++ ":" ++ appName ++ " --bind 0.0.0.0:$\x7bPORT:-8000\x7d")
          else
            let isWSGIModule := module = "wsgi" || strHasSuffix module ".wsgi"
            if strContains lower "application" &&
                (isWSGIModule || strContains lower "wsgi" || strContains lower "django.core.wsgi") then
              some ("gunicorn " ++ module ++ ":application --bind 0.0.0.0:$\x7bPORT:-8000\x7d")
            else none
    hit.getD ""

/-- Model of `detectPythonMainModule`: a sorted top-level (then, with
packaging metadata, `src/`) directory with a `__main__.py`. -/
def detectPythonMainModule (fs : FS) (repoPath : String) : String :=
  if repoPath = "" then ""
  else
    match fs.readDir repoPath with
    | none => ""
    | some entries =>
      let names := entries.filterMap fun e =>
        if !e.isDir then none
        else
          let n := goTrim e.name
          if n = "" || strHasPrefix n "." then none else some n
      let names := sortByLower names
      match names.find? (fun n =>
          isPythonIdentifier n && fileExistsIn fs (joinPath repoPath n) "__main__.py") with
      | some n => n
      | none =>
        if !(fileExistsIn fs repoPath "pyproject.toml" || fileExistsIn fs repoPath "setup.py") then ""
        else
          let srcDir := joinPath repoPath "src"
          match fs.readDir srcDir with
          | none => ""
          | some srcEntries =>
            let srcNames := srcEntries.filterMap fun e =>
              if !e.isDir then none
              else
                let n := goTrim e.name
                if n = "" || strHasPrefix n "." then none else some n
            let srcNames := sortByLower srcNames
            match srcNames.find? (fun n =>
                isPythonIdentifier n && fileExistsIn fs (joinPath srcDir n) "__main__.py") with
            | some n => n
            | none => ""

/-- Model of `pythonPrebuildCandidates`. -/
def pythonPrebuildCandidates (fs : FS) (repoPath : String) : List String :=
  let cs : List String := []
  let cs := if repoPath ≠ "" && fileExistsIn fs repoPath "requirements.txt" then
    addCandidate cs "pip install -r requirements.txt" else cs
  let cs := if repoPath ≠ "" && fileExistsIn fs repoPath "Pipfile" then
    addCandidate cs "pip install pipenv && pipenv install --system --deploy" else cs
  let cs := if repoPath ≠ "" &&
      (fileExistsIn fs repoPath "pyproject.toml" || fileExistsIn fs repoPath "setup.py") then
    addCandidate cs "pip install ." else cs
  cs

/-- Model of `pythonBuildCandidates`. -/
def pythonBuildCandidates (fs : FS) (repoPath : String) : List String :=
  if repoPath ≠ "" && fileExistsIn fs repoPath "setup.py" then ["python setup.py build"] else []

/-- Model of `pythonRunCandidates`. -/
def pythonRunCandidates (fs : FS) (repoPath : String) : List String :=
  let cs : List String := []
  let cs := if repoPath ≠ "" && fileExistsIn fs repoPath "manage.py" then
    addCandidate (addCandidate cs "python manage.py runserver 0.0.0.0:$\x7bPORT:-8000\x7d") "python manage.py"
  else cs
  let asgi := detectASGIApplicationRunCommand fs repoPath
  let cs := if asgi ≠ "" then addCandidate cs asgi else cs
  let fastapi := detectFastAPIRunCommand fs repoPath
  let cs := if fastapi ≠ "" then addCandidate cs fastapi else cs
  let gunicorn := detectGunicornRunCommand fs repoPath
  let cs := if gunicorn ≠ "" then addCandidate cs gunicorn else cs
  let cs := ["main.py", "app.py", "server.py", "run.py"].foldl
    (fun cs file =>
      if repoPath ≠ "" && fileExistsIn fs repoPath file then addCandidate cs ("python " ++ file) else cs)
    cs
  let m := detectPythonMainModule fs repoPath
  let cs := if m ≠ "" then addCandidate cs ("python -m " ++ m) else cs
  if cs.isEmpty then addCandidate cs "python main.py" else cs

/-- Model of `detectPythonCommands`. -/
def detectPythonCommands (fs : FS) (repoPath : String) (allowed : AllowedCommands) :
    String × String × String :=
  (pickFirstAllowed (pythonPrebuildCandidates fs repoPath) allowed.prebuild,
   pickFirstAllowed (pythonBuildCandidates fs repoPath) allowed.build,
   pickFirstAllowed (pythonRunCandidates fs repoPath) allowed.run)

/-! ### Node project detection -/

/-- Model of `loadNodePackageJSON` (read plus unmarshal, both abstracted into
the file system record). -/
def loadNodePackageJSON (fs : FS) (repoPath : String) : Option NodePackageJSON :=
  if repoPath = "" then none else fs.packageJSON (joinPath repoPath "package.json")

/-- Model of `detectNodePackageManager`. -/
def detectNodePackageManager (fs : FS) (repoPath : String)
    (metadata : Option NodePackageJSON) : String :=
  let fromField :=
    match metadata with
    | none => ""
    | some m =>
      let pm := goToLower (goTrim m.packageManager)
      if strHasPrefix pm "pnpm@" || pm = "pnpm" then "pnpm"
      else if strHasPrefix pm "yarn@" || pm = "yarn" then "yarn"
      else if strHasPrefix pm "npm@" || pm = "npm" then "npm"
      else ""
  if fromField ≠ "" then fromField
  else if repoPath ≠ "" && fileExistsIn fs repoPath "pnpm-lock.yaml" then "pnpm"
  else if repoPath ≠ "" && fileExistsIn fs repoPath "yarn.lock" then "yarn"
  else if repoPath ≠ "" &&
      (fileExistsIn fs repoPath "package-lock.json" || fileExistsIn fs repoPath "npm-shrinkwrap.json") then "npm"
  else "npm"

/-- Model of `nodePrebuildCandidates`. -/
def nodePrebuildCandidates (fs : FS) (repoPath packageManager : String) : List String :=
  if packageManager = "pnpm" then ["pnpm install"]
  else if packageManager = "yarn" then ["yarn install"]
  else if repoPath ≠ "" &&
      (fileExistsIn fs repoPath "package-lock.json" || fileExistsIn fs repoPath "npm-shrinkwrap.json") then
    ["npm ci", "npm install"]
  else ["npm install", "npm ci"]

/-- Model of `hasNodeScript`: the key maps to a value that is non-empty after
trimming. -/
def hasNodeScript (scripts : List (String × String)) (key : String) : Bool :=
  match scripts.find? (fun kv => kv.1 == key) with
  | some kv => goTrim kv.2 ≠ ""
  | none => false

/-- Model of `sortedScriptNames`: the trimmed non-empty script names, sorted
case-insensitively. -/
def sortedScriptNames (scripts : List (String × String)) : List String :=
  sortByLower (scripts.filterMap fun kv =>
    let n := goTrim kv.1
    if n = "" then none else some n)

/-- Model of `nodeScriptCandidates`. -/
def nodeScriptCandidates (packageManager script : String) : List String :=
  if packageManager = "pnpm" then ["pnpm run " ++ script, "pnpm " ++ script]
  else if packageManager = "yarn" then ["yarn " ++ script, "yarn run " ++ script]
  else if script = "start" then ["npm start", "npm run start"]
  else ["npm run " ++ script]

/-- Model of `isNodeUtilityScript`. -/
def isNodeUtilityScript (name : String) : Bool :=
  let n := goToLower (goTrim name)
  n = "build" || n = "test" || n = "lint" || n = "typecheck" || n = "format" ||
    n = "clean" || n = "prepare" || n = "preinstall" || n = "postinstall" || n = "install" ||
    strHasPrefix n "build:" || strHasPrefix n "test:" || strHasPrefix n "lint:" ||
    strHasPrefix n "typecheck:" || strHasPrefix n "format:" || strHasPrefix n "clean:"

/-- State of the `addScript` closures: accumulated script names, present-set
represented by the list itself. -/
def nodeAddScriptName (scripts : List (String × String)) (st : List String) (name : String) :
    List String :=
  if !hasNodeScript scripts name then st
  else if name ∈ st then st
  else st ++ [name]

/-- Model of `nodeBuildCandidates`: the `build` script, then scripts named
`build:*` or `*:build` (case-insensitive, sorted), expanded per package
manager. -/
def nodeBuildCandidates (packageManager : String) (scripts : List (String × String)) :
    List String :=
  let names := nodeAddScriptName scripts [] "build"
  let names := (sortedScriptNames scripts).foldl
    (fun names name =>
      let lowerName := goToLower name
      if strHasPrefix lowerName "build:" || strContains lowerName ":build" then
        nodeAddScriptName scripts names name
      else names)
    names
  names.flatMap (nodeScriptCandidates packageManager)

/-- Model of `nodeRunCandidates`: `start`/`serve`/`preview`/`dev`, then
scripts whose names contain a run-like token, then the first non-utility
script when nothing matched, with `node server.js` appended. -/
def nodeRunCandidates (packageManager : String) (scripts : List (String × String)) :
    List String :=
  let names := ["start", "serve", "preview", "dev"].foldl (nodeAddScriptName scripts) []
  let names := (sortedScriptNames scripts).foldl
    (fun names name =>
      let lowerName := goToLower name
      if strContains lowerName "start" || strContains lowerName "serve" ||
          strContains lowerName "prod" || strContains lowerName "preview" then
        nodeAddScriptName scripts names name
      else names)
    names
  let names :=
    if names.isEmpty then
      match (sortedScriptNames scripts).find? (fun n => !isNodeUtilityScript n) with
      | some n => nodeAddScriptName scripts names n
      | none => names
    else names
  names.flatMap (nodeScriptCandidates packageManager) ++ ["node server.js"]

/-- Model of `detectNodeCommands`. -/
def detectNodeCommands (fs : FS) (repoPath : String) (allowed : AllowedCommands) :
    String × String × String :=
  let metadata := loadNodePackageJSON fs repoPath
  let packageManager := detectNodePackageManager fs repoPath metadata
  let scripts := (metadata.map (·.scripts)).getD []
  (pickFirstAllowed (nodePrebuildCandidates fs repoPath packageManager) allowed.prebuild,
   pickFirstAllowed (nodeBuildCandidates packageManager scripts) allowed.build,
   pickFirstAllowed (nodeRunCandidates packageManager scripts) allowed.run)

/-! ### Java project detection -/

/-- Model of `detectJavaCommands`. -/
def detectJavaCommands (fs : FS) (repoPath : String) (allowed : AllowedCommands) :
    String × String × String :=
  let isGradle := repoPath ≠ "" &&
    (fileExistsIn fs repoPath "build.gradle" || fileExistsIn fs repoPath "build.gradle.kts")
  let hasMavenWrapper := repoPath ≠ "" && fileExistsIn fs repoPath "mvnw"
  let hasGradleWrapper := repoPath ≠ "" && fileExistsIn fs repoPath "gradlew"
  if isGradle then
    let prebuildCandidates :=
      if hasGradleWrapper then ["./gradlew dependencies", "gradle dependencies"]
      else ["gradle dependencies"]
    let buildCandidates :=
      if hasGradleWrapper then ["./gradlew build -x test", "gradle build -x test"]
      else ["gradle build -x test"]
    (pickFirstAllowed prebuildCandidates allowed.prebuild,
     pickFirstAllowed buildCandidates allowed.build,
     pickFirstAllowed ["java -jar build/libs/*.jar"] allowed.run)
  else
    let prebuildCandidates :=
      if hasMavenWrapper then ["./mvnw clean", "mvn clean"] else ["mvn clean"]
    let buildCandidates :=
      if hasMavenWrapper then ["./mvnw install -DskipTests", "mvn install -DskipTests"]
      else ["mvn install -DskipTests"]
    (pickFirstAllowed prebuildCandidates allowed.prebuild,
     pickFirstAllowed buildCandidates allowed.build,
     pickFirstAllowed ["java -jar target/*.jar"] allowed.run)

/-- Model of `detectCommandsWithPath`: dispatch on the runtime; unknown
runtimes (including `php`) yield three empty commands. -/
def detectCommandsWithPath (fs : FS) (repoPath runtime : String) (allowed : AllowedCommands) :
    String × String × String :=
  if runtime = "static" then ("", "", "")
  else if runtime = "node" then detectNodeCommands fs repoPath allowed
  else if runtime = "bun" then
    (pickAllowed "bun install" allowed.prebuild,
     pickAllowed "bun run build" allowed.build,
     pickAllowed "bun run start" allowed.run)
  else if runtime = "python" then detectPythonCommands fs repoPath allowed
  else if runtime = "go" then detectGoCommands fs repoPath allowed
  else if runtime = "java" then detectJavaCommands fs repoPath allowed
  else ("", "", "")

/-! ## Image-spec generator (`internal/autodetect/dockerfile.go`) -/

/-- Model of `normalizeKeys`: trim, drop empties and duplicates (keeping the
first occurrence), then sort. -/
def normalizeKeys (keys : List String) : List String :=
  if keys.isEmpty then []
  else
    sortStrings (keys.foldl
      (fun acc k =>
        let k := goTrim k
        if k = "" then acc else if k ∈ acc then acc else acc ++ [k])
      [])

/-- Model of `renderArgLines`. -/
def renderArgLines (keys : List String) : String :=
  if keys.isEmpty then ""
  else String.join (keys.map fun k => "ARG " ++ k ++ "\n") ++ "\n"

/-- Character-level model of `strings.ReplaceAll(value, "'", "'\"'\"'")`:
with a single-character pattern the replacement maps each character
independently. -/
def escQuoteChars : List Char → List Char
  | [] => []
  | c :: rest => (if c = '\'' then "'\"'\"'".data else [c]) ++ escQuoteChars rest

/-- Model of `escapeSingleQuotes`. -/
def escapeSingleQuotes (value : String) : String := ⟨escQuoteChars value.data⟩

mutual

/-- Inverse reading of the single-quote escaping: a quote may occur only as
the full five-character sequence `'"'"'`, which decodes back to one quote;
any bare quote makes the decode fail. -/
def unescapeSingleQuotes : List Char → Option (List Char)
  | [] => some []
  | c :: rest =>
    if c = '\'' then unescapeQuoteSeq rest
    else (unescapeSingleQuotes rest).map fun l => c :: l

/-- Helper of `unescapeSingleQuotes`: after a quote, the remaining four
characters of the escape sequence must follow. -/
def unescapeQuoteSeq : List Char → Option (List Char)
  | d1 :: d2 :: d3 :: d4 :: rest2 =>
    if d1 = '"' ∧ d2 = '\'' ∧ d3 = '"' ∧ d4 = '\'' then
      (unescapeSingleQuotes rest2).map fun l => '\'' :: l
    else none
  | _ => none

end

/-- Model of `renderRunLine`: a plain RUN line without secrets; with secrets,
per-key mount flags and a single-quoted `sh -c` wrapper whose payload starts
with `set -e`, exports each secret from `/run/secrets`, and has its single
quotes escaped. -/
def renderRunLine (command : String) (secretBuildKeys : List String) : String :=
  let command := goTrim command
  if command = "" then ""
  else if secretBuildKeys.isEmpty then "RUN " ++ command ++ "\n"
  else
    let mountFlags := secretBuildKeys.map fun k => "--mount=type=secret,id=" ++ k
    let exports := secretBuildKeys.map fun k =>
      "export " ++ k ++ "=\"$(cat /run/secrets/" ++ k ++ ")\";"
    let payload := "set -e; " ++ joinSep " " exports ++ " " ++ command
    "RUN " ++ joinSep " " mountFlags ++ " sh -c '" ++
      escapeSingleQuotes payload ++ "'\n"

/-- Model of `renderCmdLine`. -/
def renderCmdLine (command : String) : String :=
  let c := goTrim command
  if c = "" then "" else "CMD " ++ c ++ "\n"

/-- Model of `generateAppDockerfile` (the source's `strings.Builder` writes,
concatenated; absent optional sections contribute the empty string). -/
def generateAppDockerfile (baseImage workDir exposePort prebuildCommand buildCommand
    runCommand : String) (buildArgKeys secretBuildKeys : List String) : String :=
  let buildArgKeys := normalizeKeys buildArgKeys
  let secretBuildKeys := normalizeKeys secretBuildKeys
  let s := "FROM " ++ baseImage ++ "\n\n" ++ "WORKDIR " ++ workDir ++ "\n\n" ++ "COPY . .\n\n"
  let s := s ++ renderArgLines buildArgKeys
  let s := s ++ renderRunLine prebuildCommand secretBuildKeys
  let s := s ++ renderRunLine buildCommand secretBuildKeys
  let s := s ++ "\nEXPOSE " ++ exposePort ++ "\n\n"
  let s := s ++ renderCmdLine runCommand
  goTrim s ++ "\n"

/-- Model of `generateStaticDockerfile`. -/
def generateStaticDockerfile : String :=
  "FROM nginx:alpine\n\nWORKDIR /usr/share/nginx/html\n\nCOPY . .\n\nEXPOSE 80\n\nCMD [\"nginx\", \"-g\", \"daemon off;\"]\n"

/-- Model of `selectJavaBaseImage`. -/
def selectJavaBaseImage (version prebuildCommand buildCommand : String) : String :=
  let version := goTrim version
  let version := if version = "" then "17" else version
  let combined := goToLower (goTrim (prebuildCommand ++ " " ++ buildCommand))
  if strContains combined "gradle" || strContains combined "./gradlew" then
    "gradle:8-jdk" ++ version
  else if strContains combined "mvn" || strContains combined "./mvnw" then
    "maven:3.9-eclipse-temurin-" ++ version
  else "eclipse-temurin:" ++ version ++ "-jdk"

/-- Model of `GenerateDockerfileWithBuildEnv`: per-runtime base image,
workdir and exposed port; errors on unsupported runtimes. -/
def GenerateDockerfileWithBuildEnv (runtime version prebuildCommand buildCommand
    runCommand : String) (buildArgKeys secretBuildKeys : List String) :
    Except String String :=
  if runtime = "node" then
    .ok (generateAppDockerfile ("node:" ++ version ++ "-alpine") "/app" "3000"
      prebuildCommand buildCommand runCommand buildArgKeys secretBuildKeys)
  else if runtime = "python" then
    .ok (generateAppDockerfile ("python:" ++ version ++ "-slim") "/app" "8000"
      prebuildCommand buildCommand runCommand buildArgKeys secretBuildKeys)
  else if runtime = "go" then
    .ok (generateAppDockerfile ("golang:" ++ version ++ "-alpine") "/app" "8080"
      prebuildCommand buildCommand runCommand buildArgKeys secretBuildKeys)
  else if runtime = "bun" then
    .ok (generateAppDockerfile ("oven/bun:" ++ version) "/app" "3000"
      prebuildCommand buildCommand runCommand buildArgKeys secretBuildKeys)
  else if runtime = "java" then
    .ok (generateAppDockerfile (selectJavaBaseImage version prebuildCommand buildCommand)
      "/app" "8080" prebuildCommand buildCommand runCommand buildArgKeys secretBuildKeys)
  else if runtime = "static" then .ok generateStaticDockerfile
  else .error ("unsupported runtime: " ++ runtime)

/-- Model of `GenerateDockerfile` (no build env wiring). -/
def GenerateDockerfile (runtime version prebuildCommand buildCommand runCommand : String) :
    Except String String :=
  GenerateDockerfileWithBuildEnv runtime version prebuildCommand buildCommand runCommand [] []

/-- Result of `autodetect.AutoDetectBuildConfig` (the `BuildConfig` struct of
`autodetect.go`). -/
structure ADBuildConfig where
  isAutoBuild : Bool
  runtime : String
  version : String
  prebuildCommand : String
  buildCommand : String
  runCommand : String
  dockerfileContent : String
deriving DecidableEq

/-- Model of `AutoDetectBuildConfig`. -/
def AutoDetectBuildConfig (fs : FS) (repoPath : String) (allowed : AllowedCommands) :
    Except String ADBuildConfig :=
  let rv := DetectRuntime fs repoPath
  let cmds := detectCommandsWithPath fs repoPath rv.1 allowed
  match GenerateDockerfile rv.1 rv.2 cmds.1 cmds.2.1 cmds.2.2 with
  | .error e => .error e
  | .ok d => .ok ⟨true, rv.1, rv.2, cmds.1, cmds.2.1, cmds.2.2, d⟩

/-! ## Environment planner (`internal/envplan/resolver.go`) -/

/-- `EnvOverride` from `storage/sqlite.go`: an optional scope replacement and
a tri-state secret flag. -/
structure EnvOverride where
  scope : String
  secret : Option Bool
deriving DecidableEq

/-- `ResolvedEnvVar` from `storage/sqlite.go`. -/
structure ResolvedEnvVar where
  key : String
  scope : String
  secret : Bool
  reason : String
deriving DecidableEq

/-- The hint files' contents as `collectBuildHints` returns them: the
`Dockerfile` and the recognized build-config files, each already upper-cased
by `readUpperFile` (missing, oversized or unreadable files read as `""` and
empty config contents are dropped). -/
structure BuildHints where
  dockerfileContent : String
  configContents : List String

/-- Public env prefixes (`publicEnvPrefixes`). -/
def publicEnvPrefixList : List String :=
  ["NEXT_PUBLIC_", "VITE_", "REACT_APP_", "NUXT_PUBLIC_", "PUBLIC_", "EXPO_PUBLIC_",
   "GATSBY_", "SVELTEKIT_PUBLIC_"]

/-- Runtime-preferred exact keys (`runtimePreferredKeys`). -/
def runtimePreferredKeyList : List String :=
  ["DATABASE_URL", "REDIS_URL", "MONGODB_URI", "PORT", "NODE_ENV", "HOST", "TZ", "LOG_LEVEL"]

/-- Runtime-preferred prefixes (`runtimePreferredPrefixes`). -/
def runtimePreferredPrefixList : List String :=
  ["DB_", "DATABASE_", "REDIS_", "POSTGRES_", "PG_", "MYSQL_", "MONGO_", "JWT_",
   "SESSION_", "COOKIE_", "SMTP_", "MAIL_"]

/-- Never-secret exact keys (`nonSecretKeys`). -/
def nonSecretKeyList : List String :=
  ["PORT", "NODE_ENV", "HOST", "TZ", "APP_ENV", "LOG_LEVEL"]

/-- Secret markers (`secretMarkers`). -/
def secretMarkerList : List String :=
  ["SECRET", "TOKEN", "PASSWORD", "PRIVATE_KEY", "API_KEY", "ACCESS_KEY", "CREDENTIAL",
   "AUTH", "CERT", "DATABASE_URL", "REDIS_URL", "CONNECTION_STRING"]

/-- Model of `hasAnyPrefix`. -/
def hasAnyPrefix (key : String) (prefixes : List String) : Bool :=
  prefixes.any fun p => strHasPrefix key p

/-- Model of `hasDockerfileArg`: some line of the (upper-cased) Dockerfile is
`ARG <key>` or `ARG <key>=…`. -/
def hasDockerfileArg (content key : String) : Bool :=
  ((splitOnCharList '\n' content.data).map fun l => (⟨l⟩ : String)).any fun line =>
    let line := goTrim line
    if strHasPrefix line "ARG " then
      let decl := goTrim ⟨line.data.drop 4⟩
      decl = key || strHasPrefix decl (key ++ "=")
    else false

/-- Model of `buildReferenceReason`. -/
def buildReferenceReason (key : String) (hints : BuildHints) : String :=
  if hints.dockerfileContent ≠ "" && hasDockerfileArg hints.dockerfileContent key then
    "dockerfile-arg"
  else if hints.dockerfileContent ≠ "" &&
      (strContains hints.dockerfileContent ("$" ++ key) ||
        strContains hints.dockerfileContent ("$\x7b" ++ key ++ "\x7d")) then
    "dockerfile-reference"
  else if hints.configContents.any (fun content => strContains content key) then
    "build-config-reference"
  else ""

/-- Model of `isRuntimePreferred`. -/
def isRuntimePreferred (key : String) : Bool :=
  runtimePreferredKeyList.contains key || hasAnyPrefix key runtimePreferredPrefixList

/-- Model of `classifyScope` (on the upper-cased key). -/
def classifyScope (key : String) (hints : BuildHints) : String × String :=
  if hasAnyPrefix key publicEnvPrefixList then ("both", "public-prefix")
  else
    let reason := buildReferenceReason key hints
    if reason ≠ "" then
      if isRuntimePreferred key then ("both", reason ++ "+runtime-signal")
      else ("build", reason)
    else if isRuntimePreferred key then ("runtime", "runtime-signal")
    else ("runtime", "default-runtime")

/-- Model of `classifySecret` (on the upper-cased key): public-prefixed and
known non-secret keys are public, marker-bearing keys are secret, and unknown
keys default to secret. -/
def classifySecret (key : String) : Bool :=
  if hasAnyPrefix key publicEnvPrefixList then false
  else if nonSecretKeyList.contains key then false
  else if secretMarkerList.any (fun marker => strContains key marker) then true
  else true

/-- Lookup in an association list (model of a Go map read). -/
def lookupAssoc {α : Type} (m : List (String × α)) (k : String) : Option α :=
  (m.find? fun kv => kv.1 == k).map (·.2)

/-- Modelled from the spec: the override-application step of the planner
(spec §4.4 step 3). The `Resolve` in `resolver.go` under `src/` lacks the
`envOverrides` parameter that its callers (`worker.go`) and its tests
(`resolver_test.go`) pass, so this step is reconstructed from the spec's
words: an override entry's non-empty `scope` replaces the scope with reason
suffix `+override-scope`, and its non-nil `secret` replaces the secret flag
with reason suffix `+override-secret`. -/
def applyEnvOverride (ov : Option EnvOverride) (key scope : String) (secret : Bool)
    (reason : String) : ResolvedEnvVar :=
  match ov with
  | none => ⟨key, scope, secret, reason⟩
  | some o =>
    let sr : String × String :=
      if o.scope ≠ "" then (o.scope, reason ++ "+override-scope") else (scope, reason)
    match o.secret with
    | some b => ⟨key, sr.1, b, sr.2 ++ "+override-secret"⟩
    | none => ⟨key, sr.1, secret, sr.2⟩

/-- Per-key resolution: scope and secret auto-detection on the upper-cased
key, the `dockerfile-arg` secret clearing, then the override step. -/
def resolveEntry (hints : BuildHints) (overrides : List (String × EnvOverride))
    (key : String) : ResolvedEnvVar :=
  let upperKey := goToUpper key
  let sr := classifyScope upperKey hints
  let secret := classifySecret upperKey
  let secret := if strHasPrefix sr.2 "dockerfile-arg" then false else secret
  applyEnvOverride (lookupAssoc overrides key) key sr.1 secret sr.2

/-- Replace the value stored under a key, or append the binding (model of a
Go map write; the key set order is immaterial, only last-write-wins is). -/
def insertReplace (m : List (String × String)) (k v : String) : List (String × String) :=
  if m.any (fun kv => kv.1 == k) then
    m.map fun kv => if kv.1 == k then (k, v) else kv
  else m ++ [(k, v)]

/-- Model of the `normalizedEnv` map: keys trimmed, empties dropped, later
writes to an already-present key overwriting the value. -/
def normalizeEnv (env : List (String × String)) : List (String × String) :=
  env.foldl
    (fun acc kv =>
      let t := goTrim kv.1
      if t = "" then acc else insertReplace acc t kv.2)
    []

/-- Output of the planner (`Result` in `resolver.go`); the two maps are
association lists with distinct keys. -/
structure EnvPlanResult where
  buildArgs : List (String × String)
  buildSecrets : List (String × String)
  entries : List ResolvedEnvVar
deriving DecidableEq

/-- Order on resolved entries used by the final `sort.Slice` (by key). -/
def entryLeP (a b : ResolvedEnvVar) : Prop := strLeP a.key b.key

instance : DecidableRel entryLeP := fun a b => instDecidableEqBool (lexLe a.key.data b.key.data) true

/-- Model of `Resolve` (with the spec-modelled override step of
`applyEnvOverride`): normalize the env map, iterate its keys in sorted
order, resolve each entry, partition build-scoped keys by the final secret
flag, and sort the entries by key. -/
def Resolve (hints : BuildHints) (env : List (String × String))
    (overrides : List (String × EnvOverride)) : EnvPlanResult :=
  if env.isEmpty then ⟨[], [], []⟩
  else
    let nenv := normalizeEnv env
    let keys := sortStrings (nenv.map (·.1))
    let getVal := fun k => (lookupAssoc nenv k).getD ""
    let entries := keys.map (resolveEntry hints overrides)
    let buildArgs := keys.filterMap fun k =>
      let e := resolveEntry hints overrides k
      if (e.scope = "build" || e.scope = "both") && !e.secret then some (k, getVal k) else none
    let buildSecrets := keys.filterMap fun k =>
      let e := resolveEntry hints overrides k
      if (e.scope = "build" || e.scope = "both") && e.secret then some (k, getVal k) else none
    ⟨buildArgs, buildSecrets, List.insertionSort entryLeP entries⟩

/-! ## Worker pipeline pieces (`internal/executor/worker.go`) -/

/-- Resource limits (`ResourceLimits` in `storage/sqlite.go`). -/
structure ResourceLimits where
  cpu : Int
  memoryMB : Int
deriving DecidableEq

/-- Build configuration (`BuildConfig` in `storage/sqlite.go`); the byte
slice `DockerfileContent` is modelled as a string, the maps as association
lists. -/
structure BuildConfig where
  isAutoBuild : Bool
  runtime : String
  version : String
  prebuildCommand : String
  buildCommand : String
  runCommand : String
  network : String
  timeoutSeconds : Int
  resourceLimits : ResourceLimits
  env : List (String × String)
  envOverrides : List (String × EnvOverride)
  resolvedEnvPlan : List ResolvedEnvVar
  dockerfileContent : String
deriving DecidableEq

/-- Source info (`SourceInfo` in `storage/sqlite.go`). -/
structure SourceInfo where
  gitRepository : String
  commitSha : String
  ref : String
  workingDir : String
deriving DecidableEq

/-- The persisted job entity, restricted to the fields the verified
operations read (`BuildJob` in `storage/sqlite.go`). -/
structure BuildJob where
  id : String
  projectId : String
  userId : String
  sourceType : String
  sourceInfo : SourceInfo
  env : List (String × String)
  buildConfig : BuildConfig
  status : String
  imageTag : String
deriving DecidableEq

/-- Model of `sanitize` in `worker.go`: replace `_` by `-`, then lower-case
(ASCII case mapping as elsewhere). -/
def sanitize (s : String) : String :=
  goToLower ⟨s.data.map fun c => if c = '_' then '-' else c⟩

/-- A UTC wall-clock instant broken into calendar fields, as
`time.Now().UTC()` provides it to `Format`. -/
structure UTCTime where
  year : Nat
  month : Nat
  day : Nat
  hour : Nat
  minute : Nat
  second : Nat
deriving DecidableEq

/-- Two-digit zero-padded decimal rendering (a field of Go's layout
`20060102T150405Z`; faithful for values below 100). -/
def pad2 (n : Nat) : String := ⟨[Nat.digitChar (n / 10 % 10), Nat.digitChar (n % 10)]⟩

/-- Four-digit zero-padded decimal rendering (the year field of the layout;
faithful for values below 10000). -/
def pad4 (n : Nat) : String :=
  ⟨[Nat.digitChar (n / 1000 % 10), Nat.digitChar (n / 100 % 10),
    Nat.digitChar (n / 10 % 10), Nat.digitChar (n % 10)]⟩

/-- Model of `time.Now().UTC().Format("20060102T150405Z")`: the `Z` in this
layout is a literal character, so the rendering is `YYYYMMDDThhmmssZ`. -/
def formatBuildTimestamp (t : UTCTime) : String :=
  pad4 t.year ++ pad2 t.month ++ pad2 t.day ++ "T" ++
    pad2 t.hour ++ pad2 t.minute ++ pad2 t.second ++ "Z"

/-- Model of `generateImageTag` (the wall clock passed explicitly): the first
twelve characters of the commit sha (all of it when shorter), sanitized user
and project ids, and the formatted timestamp. -/
def generateImageTag (registry userId projectId jobId commitSha : String)
    (now : UTCTime) : String :=
  let ts := formatBuildTimestamp now
  let shortSha := if commitSha.data.length > 12 then (⟨commitSha.data.take 12⟩ : String) else commitSha
  registry ++ "/" ++ sanitize userId ++ "/" ++ sanitize projectId ++ ":" ++
    shortSha ++ "-b" ++ jobId ++ "-v" ++ ts

/-- Model of the worker's user-network guard (`worker.go` lines 137–141):
the job is rejected with reason `no user network provided` exactly when the
configured network trims to the empty string. -/
def workerRejectsNetwork (bc : BuildConfig) : Bool := goTrim bc.network == ""

/-! ### Decision procedure for the spec's image-tag regular expression -/

/-- Character class `[a-z0-9-]` of the sanitized id segments. -/
def isTagSegChar (c : Char) : Bool :=
  ('a' ≤ c && c ≤ 'z') || ('0' ≤ c && c ≤ '9') || c == '-'

/-- Character class `[0-9a-f]` of the short-sha segment. -/
def isHexLowerChar (c : Char) : Bool :=
  ('0' ≤ c && c ≤ '9') || ('a' ≤ c && c ≤ 'f')

/-- Character class `[0-9]`. -/
def isAsciiDigit (c : Char) : Bool := '0' ≤ c && c ≤ '9'

/-- Decision procedure for the spec's anchored expression
`^[^/]+/[a-z0-9-]+/[a-z0-9-]+:[0-9a-f]\x7b0,12\x7d-b[^-]+-v[0-9]\x7b8\x7dT[0-9]\x7b6\x7dZ$`.
The parse is deterministic: each variable-length piece is drawn from a
character class that excludes its terminator, so the maximal run is the only
viable match at every step. -/
def imageTagMatchesFormat (s : String) : Bool :=
  let l := s.data
  let reg := l.takeWhile fun c => !(c == '/')
  !reg.isEmpty &&
    (match l.dropWhile (fun c => !(c == '/')) with
     | '/' :: l1 =>
       let u := l1.takeWhile isTagSegChar
       !u.isEmpty &&
         (match l1.dropWhile isTagSegChar with
          | '/' :: l2 =>
            let p := l2.takeWhile isTagSegChar
            !p.isEmpty &&
              (match l2.dropWhile isTagSegChar with
               | ':' :: l3 =>
                 let sha := l3.takeWhile isHexLowerChar
                 decide (sha.length ≤ 12) &&
                   (match l3.dropWhile isHexLowerChar with
                    | '-' :: 'b' :: l4 =>
                      let j := l4.takeWhile fun c => !(c == '-')
                      !j.isEmpty &&
                        (match l4.dropWhile (fun c => !(c == '-')) with
                         | '-' :: 'v' :: l5 =>
                           decide ((l5.take 8).length = 8) && (l5.take 8).all isAsciiDigit &&
                             (match l5.drop 8 with
                              | 'T' :: l6 =>
                                decide ((l6.take 6).length = 6) && (l6.take 6).all isAsciiDigit &&
                                  l6.drop 6 == ['Z']
                              | _ => false)
                         | _ => false)
                    | _ => false)
               | _ => false)
          | _ => false)
     | _ => false)

/-! ## Job-creation handler (`internal/server/server.go`) -/

/-- Outcomes of the handler's external effects during pre-synthesis: the
temporary directory creation, the `git clone`, the two `git checkout` calls
(consulted only when `ref`, resp. `commitSha`, is non-empty), the cloned
tree (rooted at `tempDirPath`) inspected by the detector, and the
persistence store's `CreateJob`. -/
structure CreateJobEffects where
  tempDirOk : Bool
  tempDirPath : String
  cloneOk : Bool
  refCheckoutOk : Bool
  shaCheckoutOk : Bool
  fs : FS
  createOk : Bool

/-- Model of `CreateJobHandler` after a successfully parsed body: the HTTP
status and, on 201, the stored job. For auto-build jobs the whole
`buildConfig` is replaced by a literal that carries the detected fields plus
the caller's `timeoutSeconds` and `resourceLimits`; every other field takes
its zero value. -/
def CreateJobHandler (job : BuildJob) (allowed : AllowedCommands)
    (eff : CreateJobEffects) : Nat × Option BuildJob :=
  if job.buildConfig.isAutoBuild then
    if !eff.tempDirOk then (500, none)
    else if !eff.cloneOk then (400, none)
    else if job.sourceInfo.ref ≠ "" && !eff.refCheckoutOk then (400, none)
    else if job.sourceInfo.commitSha ≠ "" && !eff.shaCheckoutOk then (400, none)
    else
      let inspectDir :=
        if job.sourceInfo.workingDir ≠ "" then joinPath eff.tempDirPath job.sourceInfo.workingDir
        else eff.tempDirPath
      match AutoDetectBuildConfig eff.fs inspectDir allowed with
      | .error _ => (500, none)
      | .ok d =>
        let job := { job with
          buildConfig :=
            { isAutoBuild := d.isAutoBuild
              runtime := d.runtime
              version := d.version
              prebuildCommand := d.prebuildCommand
              buildCommand := d.buildCommand
              runCommand := d.runCommand
              network := ""
              timeoutSeconds := job.buildConfig.timeoutSeconds
              resourceLimits := job.buildConfig.resourceLimits
              env := []
              envOverrides := []
              resolvedEnvPlan := []
              dockerfileContent := d.dockerfileContent } }
        if eff.createOk then (201, some job) else (500, none)
  else if eff.createOk then (201, some job) else (500, none)

/-! ## Callback reporter (`ReportResult`, package `api`) -/

/-- Outcome of one POST attempt: a transport error, or a response with a
status code. -/
inductive CallbackAttempt where
  | transportError (msg : String)
  | response (status : Int)
deriving DecidableEq

/-- A 2xx response ends the retry loop. -/
def callbackSucceeded : CallbackAttempt → Bool
  | .response s => decide (200 ≤ s ∧ s < 300)
  | .transportError _ => false

/-- What one run of the reporter did: how many requests it made, the sleeps
(in seconds; exact rational arithmetic models the float computation) before
each retry, and whether it ended in success or with the last attempt's
error. -/
structure CallbackRun where
  requests : Nat
  sleeps : List ℚ
  result : Except CallbackAttempt Unit

/-- Sleep before retry `i` (`i ≥ 1`): `2·2^(i-1)` seconds scaled by
`1 + jitter` with `jitter = 0.4·r − 0.2` for the drawn `r ∈ [0,1)`. -/
def retrySleep (i : Nat) (r : ℚ) : ℚ :=
  (2 * 2 ^ (i - 1)) * (1 + (r * (4 / 10) - 2 / 10))

/-- The retry portion of `ReportResult`'s loop, starting at attempt `i ≥ 1`
with `fuel` retries left; `le` is the error of the previous attempt. -/
def callbackRetryLoop (outcomes : Nat → CallbackAttempt) (jitters : Nat → ℚ) :
    Nat → Nat → CallbackAttempt → CallbackRun
  | 0, _, le => ⟨0, [], .error le⟩
  | fuel + 1, i, _ =>
    let sl := retrySleep i (jitters i)
    if callbackSucceeded (outcomes i) then ⟨1, [sl], .ok ()⟩
    else
      let r := callbackRetryLoop outcomes jitters fuel (i + 1) (outcomes i)
      ⟨r.requests + 1, sl :: r.sleeps, r.result⟩

/-- Model of `ReportResult`'s control flow (the loop `for i := 0; i <= 5`
unrolled at `i = 0`, where no sleep happens): an empty callback URL returns
success without a request; otherwise the initial attempt and up to five
retries with exponential backoff; transport errors and non-2xx responses are
both retried; after exhaustion the last error is returned. -/
def ReportResult (callbackURL : String) (outcomes : Nat → CallbackAttempt)
    (jitters : Nat → ℚ) : CallbackRun :=
  if callbackURL = "" then ⟨0, [], .ok ()⟩
  else if callbackSucceeded (outcomes 0) then ⟨1, [], .ok ()⟩
  else
    let r := callbackRetryLoop outcomes jitters 5 1 (outcomes 0)
    ⟨r.requests + 1, r.sleeps, r.result⟩

/-! ## Spec-side restatement of the runtime discriminators (for comparison
with `DetectRuntime`) -/

/-- The spec's fixed priority list of runtime discriminators: marker files,
runtime, version. -/
def runtimeDiscriminators : List (List String × String × String) :=
  [(["bun.lock"], ("bun", "1.2")),
   (["package.json"], ("node", "22")),
   (["requirements.txt", "pyproject.toml", "setup.py", "Pipfile"], ("python", "3.9")),
   (["go.mod"], ("go", "1.18")),
   (["composer.json"], ("php", "8")),
   (["pom.xml", "build.gradle", "build.gradle.kts"], ("java", "17")),
   (["index.html"], ("static", "latest"))]

/-- The spec's reading of runtime detection: the first discriminator with any
marker present wins; otherwise `unknown`. -/
def detectRuntimeSpec (fs : FS) (repoPath : String) : String × String :=
  match runtimeDiscriminators.find? (fun d => d.1.any fun m => fileExistsIn fs repoPath m) with
  | some d => d.2
  | none => ("unknown", "")

/-! ## String toolkit lemmas -/

theorem infixOf_iff (n h : List Char) : infixOf n h = true ↔ n <:+: h := by
  induction h with
  | nil => simp [infixOf, List.isEmpty_iff, List.infix_nil]
  | cons c t ih =>
    simp [infixOf, ih, List.isPrefixOf_iff_prefix, List.infix_cons_iff]

theorem strContains_iff (hay needle : String) :
    strContains hay needle = true ↔ needle.data <:+: hay.data := infixOf_iff _ _

theorem strContains_of_eq_append (hay needle x y : String)
    (h : hay = x ++ needle ++ y) : strContains hay needle = true := by
  subst h
  rw [strContains_iff]
  exact ⟨x.data, y.data, by simp⟩

theorem dropWhile_append_of_mem {p : Char → Bool} {a : List Char}
    (h : ∃ c ∈ a, p c = false) (b : List Char) :
    (a ++ b).dropWhile p = a.dropWhile p ++ b := by
  rw [List.dropWhile_append]
  rcases h with ⟨c, hc, hpc⟩
  have : a.dropWhile p ≠ [] := by
    intro hnil
    have := List.dropWhile_eq_nil_iff.mp hnil c hc
    simp [hpc] at this
  simp [List.isEmpty_iff, this]

theorem goTrimChars_middle {a m b : List Char} {c0 : Char} {a' : List Char}
    (ha : a = c0 :: a') (hc0 : goIsSpace c0 = false)
    (hb : ∃ c ∈ b, goIsSpace c = false) :
    ∃ t, goTrimChars (a ++ m ++ b) = a ++ m ++ t := by
  subst ha
  have h1 : ((c0 :: a') ++ m ++ b).dropWhile goIsSpace = (c0 :: a') ++ m ++ b := by
    simp [List.dropWhile_cons, hc0]
  rw [goTrimChars, h1, trimRightChars]
  have hbr : ∃ c ∈ b.reverse, goIsSpace c = false := by
    rcases hb with ⟨c, hc, hpc⟩; exact ⟨c, by simpa using hc, hpc⟩
  have h2 : ((c0 :: a') ++ m ++ b).reverse = b.reverse ++ (m.reverse ++ ((c0 :: a')).reverse) := by
    simp
  rw [h2, dropWhile_append_of_mem hbr]
  refine ⟨(b.reverse.dropWhile goIsSpace).reverse, ?_⟩
  simp

theorem goTrim_middle (a m b : String) {c0 : Char} {a' : List Char}
    (ha : a.data = c0 :: a') (hc0 : goIsSpace c0 = false)
    (hb : ∃ c ∈ b.data, goIsSpace c = false) :
    ∃ t : String, goTrim (a ++ m ++ b) = a ++ m ++ t := by
  obtain ⟨t, ht⟩ := goTrimChars_middle ha hc0 hb
  refine ⟨⟨t⟩, ?_⟩
  apply String.ext
  simpa [goTrim] using ht

/-! ## Wildcard matcher adequacy -/

theorem matchParts_iff (parts : List (List Char)) (v : List Char) :
    matchParts parts v = true ↔ SegsSpec parts v := by
  match parts with
  | [] => simp [matchParts, SegsSpec, List.isEmpty_iff]
  | [p] =>
    show (v == p) = true ↔ (v = p)
    exact beq_iff_eq
  | p :: q :: ps =>
    rw [matchParts, SegsSpec]
    simp only [Bool.and_eq_true, List.any_eq_true, List.mem_range, List.all_eq_true]
    constructor
    · rintro ⟨hpre, n, hn, hsafe, hrec⟩
      have hp : p <+: v := List.isPrefixOf_iff_prefix.mp hpre
      have hv : p ++ v.drop p.length = v := List.prefix_iff_eq_append.mp hp
      have hw'len : (v.drop p.length).length = v.length - p.length := List.length_drop _ _
      refine ⟨(v.drop p.length).take (n + 1), (v.drop p.length).drop (n + 1), ?_, ?_, hsafe, ?_⟩
      · conv_lhs => rw [← hv]
        rw [List.append_assoc, List.take_append_drop]
      · intro hnil
        have hlen := congrArg List.length hnil
        rw [List.length_take] at hlen
        simp only [List.length_nil] at hlen
        omega
      · exact (matchParts_iff (q :: ps) _).mp hrec
    · rintro ⟨w, rest, hv, hw, hsafe, hrec⟩
      have hp : p <+: v := ⟨w ++ rest, by simp [hv]⟩
      have hwpos : 0 < w.length := List.length_pos.mpr hw
      have hdrop : v.drop p.length = w ++ rest := by
        rw [hv, List.append_assoc]
        exact List.drop_left p (w ++ rest)
      have h1 : w.length - 1 + 1 = w.length := by omega
      refine ⟨List.isPrefixOf_iff_prefix.mpr hp, w.length - 1, ?_, ?_, ?_⟩
      · have hvlen : v.length = p.length + (w.length + rest.length) := by
          rw [hv]; simp
        omega
      · intro c hc
        apply hsafe
        rw [hdrop, h1, List.take_left] at hc
        exact hc
      · rw [hdrop, h1, List.drop_left]
        exact (matchParts_iff (q :: ps) rest).mpr hrec

theorem wildcardMatch_iff (pattern value : String) :
    wildcardMatch pattern value = true ↔ SegsSpec (splitOnStar pattern.data) value.data :=
  matchParts_iff _ _

theorem containsChar_iff (s : String) (c : Char) : containsChar s c = true ↔ c ∈ s.data := by
  simp [containsChar, List.any_eq_true, beq_iff_eq]

/-- C2: `IsCommandAllowed(c, ps)` returns true iff the whitespace-trimmed `c`
is non-empty and either equals some whitespace-trimmed non-empty pattern, or
matches end-to-end a trimmed pattern containing `*` where each `*` stands for
one or more characters from the class `[-A-Za-z0-9:._/]` only; in particular
with `ps = ["npm run *"]`, `npm run build` is allowed while
`npm run build;rm` and `npm run build -- --prod` are not, and an empty
command or an empty pattern never matches. -/
theorem isCommandAllowed_semantics :
    (∀ (cmd : String) (ps : List String),
        IsCommandAllowed cmd ps = true ↔ AllowedSpec cmd ps)
    ∧ IsCommandAllowed "npm run build" ["npm run *"] = true
    ∧ IsCommandAllowed "npm run build;rm" ["npm run *"] = false
    ∧ IsCommandAllowed "npm run build -- --prod" ["npm run *"] = false
    ∧ (∀ ps, IsCommandAllowed "" ps = false)
    ∧ (∀ cmd, IsCommandAllowed cmd [""] = false) := by
  refine ⟨?_, by decide, by decide, by decide, ?_, ?_⟩
  · intro cmd ps
    by_cases hc : goTrim cmd = ""
    · simp [IsCommandAllowed, hc, AllowedSpec]
    · rw [AllowedSpec]
      simp only [IsCommandAllowed, hc, if_false, List.any_eq_true, ne_eq,
        not_false_eq_true, true_and]
      refine exists_congr fun a => and_congr_right fun _ => ?_
      by_cases hp : goTrim a = ""
      · simp [hp, hc]
      · simp only [hp, if_false, Bool.or_eq_true, Bool.and_eq_true, beq_iff_eq,
          containsChar_iff, wildcardMatch_iff, ne_eq, not_false_eq_true, true_and]
  · intro ps
    simp [IsCommandAllowed, show goTrim "" = "" from rfl]
  · intro cmd
    by_cases h : goTrim cmd = "" <;>
      simp [IsCommandAllowed, h, show goTrim "" = "" from rfl]

/-! ## Allowlist soundness of the detector -/

theorem isCommandAllowed_head (a : String) (rest : List String) (h : goTrim a ≠ "") :
    IsCommandAllowed a (a :: rest) = true := by
  simp [IsCommandAllowed, h]

theorem pickAllowed_sound (preferred : String) (allowed : List String)
    (h : goTrim (pickAllowed preferred allowed) ≠ "") :
    IsCommandAllowed (pickAllowed preferred allowed) allowed = true := by
  by_cases hp : IsCommandAllowed preferred allowed = true
  · have e : pickAllowed preferred allowed = preferred := by
      unfold pickAllowed; rw [if_pos hp]
    rw [e]; exact hp
  · cases allowed with
    | nil =>
      have e : pickAllowed preferred [] = "" := by
        unfold pickAllowed; rw [if_neg hp]
      rw [e] at h; exact absurd rfl h
    | cons a rest =>
      have e : pickAllowed preferred (a :: rest) = a := by
        unfold pickAllowed; rw [if_neg hp]
      rw [e] at h ⊢
      exact isCommandAllowed_head a rest h

theorem pickFirstAllowed_sound (candidates allowed : List String)
    (h : goTrim (pickFirstAllowed candidates allowed) ≠ "") :
    IsCommandAllowed (pickFirstAllowed candidates allowed) allowed = true := by
  have e : pickFirstAllowed candidates allowed =
      match candidates.find? (fun c => IsCommandAllowed c allowed) with
      | some c => c
      | none => "" := rfl
  cases hf : candidates.find? (fun c => IsCommandAllowed c allowed) with
  | none => rw [e, hf] at h; exact absurd rfl h
  | some c =>
    rw [e, hf]
    show IsCommandAllowed c allowed = true
    exact @List.find?_some String (fun x => IsCommandAllowed x allowed) c candidates hf

/-- C1 (amended): for every repository, allowlist and runtime, each command
returned by the detector that is non-empty after whitespace trimming
satisfies `IsCommandAllowed` against its stage's pattern list — including
the bun path, where `pickAllowed` falls back to the first raw allowlist
pattern (which, whenever it trims non-empty, matches itself exactly). The
unamended claim, stated for every non-empty command string, fails on
whitespace-only patterns (see the counterexample). -/
theorem detector_allowlist_soundness (fs : FS) (repoPath runtime : String)
    (allowed : AllowedCommands) :
    (goTrim (detectCommandsWithPath fs repoPath runtime allowed).1 ≠ "" →
      IsCommandAllowed (detectCommandsWithPath fs repoPath runtime allowed).1
        allowed.prebuild = true) ∧
    (goTrim (detectCommandsWithPath fs repoPath runtime allowed).2.1 ≠ "" →
      IsCommandAllowed (detectCommandsWithPath fs repoPath runtime allowed).2.1
        allowed.build = true) ∧
    (goTrim (detectCommandsWithPath fs repoPath runtime allowed).2.2 ≠ "" →
      IsCommandAllowed (detectCommandsWithPath fs repoPath runtime allowed).2.2
        allowed.run = true) := by
  unfold detectCommandsWithPath
  split_ifs with h1 h2 h3 h4 h5 h6
  · exact ⟨fun h => absurd rfl h, fun h => absurd rfl h, fun h => absurd rfl h⟩
  · simp only [detectNodeCommands]
    exact ⟨fun h => pickFirstAllowed_sound _ _ h, fun h => pickFirstAllowed_sound _ _ h,
      fun h => pickFirstAllowed_sound _ _ h⟩
  · exact ⟨fun h => pickAllowed_sound _ _ h, fun h => pickAllowed_sound _ _ h,
      fun h => pickAllowed_sound _ _ h⟩
  · simp only [detectPythonCommands]
    exact ⟨fun h => pickFirstAllowed_sound _ _ h, fun h => pickFirstAllowed_sound _ _ h,
      fun h => pickFirstAllowed_sound _ _ h⟩
  · simp only [detectGoCommands]
    exact ⟨fun h => pickFirstAllowed_sound _ _ h, fun h => pickFirstAllowed_sound _ _ h,
      fun h => pickFirstAllowed_sound _ _ h⟩
  · simp only [detectJavaCommands]
    split_ifs <;>
      exact ⟨fun h => pickFirstAllowed_sound _ _ h, fun h => pickFirstAllowed_sound _ _ h,
        fun h => pickFirstAllowed_sound _ _ h⟩
  · exact ⟨fun h => absurd rfl h, fun h => absurd rfl h, fun h => absurd rfl h⟩

/-- C1 counterexample to the unamended claim: with the allowlist `[" "]` for
the prebuild stage, the bun path returns the raw pattern `" "`, a non-empty
command string that `IsCommandAllowed` rejects against the very list that
produced it. -/
theorem detector_allowlist_soundness_cex :
    (detectCommandsWithPath emptyFS "" "bun" ⟨[" "], [], []⟩).1 = " " ∧
    (" " : String) ≠ "" ∧
    IsCommandAllowed " " [" "] = false := by decide

/-- Witness: the amended soundness theorem applied at a concrete repository
and allowlist, including the bun fallback to the first raw pattern. -/
theorem detector_allowlist_soundness_witness :
    IsCommandAllowed (detectCommandsWithPath emptyFS "" "bun" ⟨["npm ci"], [], []⟩).1
      ["npm ci"] = true :=
  (detector_allowlist_soundness emptyFS "" "bun" ⟨["npm ci"], [], []⟩).1 (by decide)

/-! ## Runtime detection priority -/

/-- C7: for every repository (non-empty path, as every caller passes), the
detector returns the runtime/version of the first matching discriminator in
the fixed order bun.lock → bun@1.2, package.json → node@22,
requirements.txt/pyproject.toml/setup.py/Pipfile → python@3.9,
go.mod → go@1.18, composer.json → php@8,
pom.xml/build.gradle/build.gradle.kts → java@17, index.html → static@latest,
and otherwise `unknown` — for which the recipe generator, and with it
`AutoDetectBuildConfig` under auto-build, fails. -/
theorem detectRuntime_priority (fs : FS) (repoPath : String) (h : repoPath ≠ "") :
    DetectRuntime fs repoPath = detectRuntimeSpec fs repoPath ∧
    ((DetectRuntime fs repoPath).1 = "unknown" →
      ∀ allowed, (AutoDetectBuildConfig fs repoPath allowed).isOk = false) := by
  have hpy : isPythonProject fs repoPath =
      (fileExistsIn fs repoPath "requirements.txt" || fileExistsIn fs repoPath "pyproject.toml" ||
        fileExistsIn fs repoPath "setup.py" || fileExistsIn fs repoPath "Pipfile") := by
    rw [isPythonProject, if_neg h]
  constructor
  · rw [DetectRuntime, detectRuntimeSpec, runtimeDiscriminators, hpy]
    simp only [List.find?_cons, List.any_cons, List.any_nil, Bool.or_false]
    split_ifs with b1 b2 b3 b4 b5 b6 b7
    · simp_all
    · simp_all
    · cases hsc : (fileExistsIn fs repoPath "requirements.txt" ||
          (fileExistsIn fs repoPath "pyproject.toml" ||
            (fileExistsIn fs repoPath "setup.py" || fileExistsIn fs repoPath "Pipfile"))) with
      | true => simp_all
      | false => simp_all
    · simp_all
    · simp_all
    · cases hsc : (fileExistsIn fs repoPath "pom.xml" ||
          (fileExistsIn fs repoPath "build.gradle" ||
            fileExistsIn fs repoPath "build.gradle.kts")) with
      | true => simp_all
      | false => simp_all
    · simp_all
    · simp_all
  · intro hu allowed
    rw [AutoDetectBuildConfig]
    have : (detectCommandsWithPath fs repoPath (DetectRuntime fs repoPath).1 allowed) =
        detectCommandsWithPath fs repoPath "unknown" allowed := by rw [hu]
    rw [hu]
    have egen : GenerateDockerfile "unknown" (DetectRuntime fs repoPath).2
        (detectCommandsWithPath fs repoPath "unknown" allowed).1
        (detectCommandsWithPath fs repoPath "unknown" allowed).2.1
        (detectCommandsWithPath fs repoPath "unknown" allowed).2.2 =
        .error "unsupported runtime: unknown" := rfl
    rw [egen]
    rfl

/-- Witness: the priority theorem applied at a concrete repository whose only
marker is `go.mod`, detecting go@1.18 on both sides. -/
theorem detectRuntime_priority_witness :
    DetectRuntime
        { emptyFS with fileExists := fun p => p = "r/go.mod" } "r" =
      detectRuntimeSpec { emptyFS with fileExists := fun p => p = "r/go.mod" } "r" :=
  (detectRuntime_priority { emptyFS with fileExists := fun p => p = "r/go.mod" } "r"
    (by decide)).1

/-! ## Image-spec generator: secret wiring -/

theorem strAppend_assoc (a b c : String) : a ++ b ++ c = a ++ (b ++ c) :=
  String.ext (by simp [String.data_append])

theorem unescape_escQuote (l : List Char) :
    unescapeSingleQuotes (escQuoteChars l) = some l := by
  induction l with
  | nil => rfl
  | cons c t ih =>
    by_cases hc : c = '\''
    · subst hc
      have e : escQuoteChars ('\'' :: t) =
          '\'' :: '"' :: '\'' :: '"' :: '\'' :: escQuoteChars t := by
        show (if ('\'' : Char) = '\'' then "'\"'\"'".data else ['\'']) ++ escQuoteChars t = _
        rw [if_pos rfl]
        rfl
      rw [e, unescapeSingleQuotes, if_pos rfl, unescapeQuoteSeq, if_pos (by decide), ih]
      rfl
    · have e : escQuoteChars (c :: t) = c :: escQuoteChars t := by
        show (if c = '\'' then "'\"'\"'".data else [c]) ++ escQuoteChars t = _
        rw [if_neg hc]
        rfl
      rw [e, unescapeSingleQuotes, if_neg hc, ih]
      rfl

theorem joinSep_cons_cons (sep a b : String) (t2 : List String) :
    joinSep sep (a :: b :: t2) = a ++ sep ++ joinSep sep (b :: t2) := rfl

theorem mem_joinSep_middle (sep : String) (l : List String) (x : String) (hx : x ∈ l) :
    x.data <:+: (joinSep sep l).data := by
  induction l with
  | nil => cases hx
  | cons a t ih =>
    cases t with
    | nil =>
      have : x = a := by simpa using hx
      subst this
      exact (show (joinSep sep [x]) = x from rfl) ▸ List.infix_rfl
    | cons b t2 =>
      rcases List.mem_cons.mp hx with rfl | hx'
      · rw [joinSep_cons_cons]
        apply List.IsPrefix.isInfix
        rw [String.data_append, String.data_append, List.append_assoc]
        exact List.prefix_append _ _
      · refine (ih hx').trans ?_
        rw [joinSep_cons_cons]
        apply List.IsSuffix.isInfix
        rw [String.data_append]
        exact List.suffix_append _ _

theorem renderRunLine_no_secrets (cmd : String) (h : goTrim cmd ≠ "") :
    renderRunLine cmd [] = "RUN " ++ goTrim cmd ++ "\n" := by
  simp [renderRunLine, h]

theorem renderRunLine_secrets (cmd : String) (keys : List String) (h : goTrim cmd ≠ "")
    (hk : keys ≠ []) :
    renderRunLine cmd keys =
      "RUN " ++ joinSep " " (keys.map fun k => "--mount=type=secret,id=" ++ k) ++
        " sh -c '" ++
        escapeSingleQuotes ("set -e; " ++
          joinSep " " (keys.map fun k =>
            "export " ++ k ++ "=\"$(cat /run/secrets/" ++ k ++ ")\";") ++
          " " ++ goTrim cmd) ++ "'\n" := by
  rw [renderRunLine]
  simp only [h, if_false]
  rw [if_neg (by simp [List.isEmpty_iff, hk])]

theorem strContains_goTrim_append_newline (W m : String) (A B : List Char) (c0 : Char)
    (a' : List Char) (hW : W.data = A ++ m.data ++ B) (hA : A = c0 :: a')
    (hc0 : goIsSpace c0 = false) (hB : ∃ c ∈ B, goIsSpace c = false) :
    strContains (goTrim W ++ "\n") m = true := by
  subst hA
  obtain ⟨t, ht⟩ := goTrimChars_middle rfl hc0 hB (m := m.data)
  rw [strContains]
  apply (infixOf_iff _ _).mpr
  have hdata : (goTrim W ++ "\n").data = goTrimChars W.data ++ ['\n'] := by
    simp [goTrim, String.data_append]
  rw [hdata, hW, ht]
  refine (List.infix_append (c0 :: a') m.data t).trans ?_
  exact ⟨[], ['\n'], by simp⟩

theorem generateApp_contains_runline (base wd port pre bld run : String)
    (args secrets : List String) (cmd : String) (hc : cmd = pre ∨ cmd = bld) :
    strContains (generateAppDockerfile base wd port pre bld run args secrets)
      (renderRunLine cmd (normalizeKeys secrets)) = true := by
  have hgen : generateAppDockerfile base wd port pre bld run args secrets =
      goTrim ("FROM " ++ base ++ "\n\n" ++ "WORKDIR " ++ wd ++ "\n\n" ++ "COPY . .\n\n" ++
        renderArgLines (normalizeKeys args) ++
        renderRunLine pre (normalizeKeys secrets) ++
        renderRunLine bld (normalizeKeys secrets) ++
        "\nEXPOSE " ++ port ++ "\n\n" ++ renderCmdLine run) ++ "\n" := rfl
  rw [hgen]
  have hFROM : "FROM ".data = 'F' :: "ROM ".data := by decide
  have hE : 'E' ∈ "\nEXPOSE ".data := by decide
  rcases hc with rfl | rfl
  · refine strContains_goTrim_append_newline _ _
      ("FROM ".data ++ (base.data ++ ("\n\n".data ++ ("WORKDIR ".data ++ (wd.data ++
        ("\n\n".data ++ ("COPY . .\n\n".data ++
          (renderArgLines (normalizeKeys args)).data)))))))
      ((renderRunLine bld (normalizeKeys secrets)).data ++ ("\nEXPOSE ".data ++ (port.data ++
        ("\n\n".data ++ (renderCmdLine run).data))))
      'F'
      ("ROM ".data ++ (base.data ++ ("\n\n".data ++ ("WORKDIR ".data ++ (wd.data ++
        ("\n\n".data ++ ("COPY . .\n\n".data ++
          (renderArgLines (normalizeKeys args)).data)))))))
      ?_ ?_ (by decide) ?_
    · simp [String.data_append]
    · rw [hFROM]; simp
    · exact ⟨'E', by simp only [List.mem_append]; tauto, by decide⟩
  · refine strContains_goTrim_append_newline _ _
      ("FROM ".data ++ (base.data ++ ("\n\n".data ++ ("WORKDIR ".data ++ (wd.data ++
        ("\n\n".data ++ ("COPY . .\n\n".data ++
          ((renderArgLines (normalizeKeys args)).data ++
            (renderRunLine pre (normalizeKeys secrets)).data))))))))
      ("\nEXPOSE ".data ++ (port.data ++ ("\n\n".data ++ (renderCmdLine run).data)))
      'F'
      ("ROM ".data ++ (base.data ++ ("\n\n".data ++ ("WORKDIR ".data ++ (wd.data ++
        ("\n\n".data ++ ("COPY . .\n\n".data ++
          ((renderArgLines (normalizeKeys args)).data ++
            (renderRunLine pre (normalizeKeys secrets)).data))))))))
      ?_ ?_ (by decide) ?_
    · simp [String.data_append]
    · rw [hFROM]; simp
    · exact ⟨'E', by simp only [List.mem_append]; tauto, by decide⟩

theorem generateApp_secret_wiring (base wd port pre bld run : String)
    (args secrets : List String) :
    ∀ cmd ∈ [pre, bld], goTrim cmd ≠ "" →
      (normalizeKeys secrets = [] →
        strContains (generateAppDockerfile base wd port pre bld run args secrets)
          ("RUN " ++ goTrim cmd ++ "\n") = true) ∧
      (normalizeKeys secrets ≠ [] →
        ∃ mounts payload : String,
          strContains (generateAppDockerfile base wd port pre bld run args secrets)
            ("RUN " ++ mounts ++ " sh -c '" ++ escapeSingleQuotes payload ++ "'\n") = true ∧
          strHasPrefix payload "set -e" = true ∧
          unescapeSingleQuotes (escapeSingleQuotes payload).data = some payload.data ∧
          strHasSuffix payload (" " ++ goTrim cmd) = true ∧
          (∀ k ∈ normalizeKeys secrets,
            strContains mounts ("--mount=type=secret,id=" ++ k) = true ∧
            strContains payload
              ("export " ++ k ++ "=\"$(cat /run/secrets/" ++ k ++ ")\";") = true)) := by
  intro cmd hcmd h
  have hmem : cmd = pre ∨ cmd = bld := by simpa using hcmd
  constructor
  · intro hk0
    have hrun := generateApp_contains_runline base wd port pre bld run args secrets cmd hmem
    rw [hk0, renderRunLine_no_secrets cmd h] at hrun
    exact hrun
  · intro hkne
    refine ⟨joinSep " " ((normalizeKeys secrets).map fun k => "--mount=type=secret,id=" ++ k),
      "set -e; " ++ joinSep " " ((normalizeKeys secrets).map fun k =>
        "export " ++ k ++ "=\"$(cat /run/secrets/" ++ k ++ ")\";") ++ " " ++ goTrim cmd,
      ?_, ?_, ?_, ?_, ?_⟩
    · have hrun := generateApp_contains_runline base wd port pre bld run args secrets cmd hmem
      rw [renderRunLine_secrets cmd (normalizeKeys secrets) h hkne] at hrun
      exact hrun
    · rw [strHasPrefix, List.isPrefixOf_iff_prefix]
      have hd : ("set -e; " ++ joinSep " " ((normalizeKeys secrets).map fun k =>
          "export " ++ k ++ "=\"$(cat /run/secrets/" ++ k ++ ")\";") ++ " " ++ goTrim cmd).data =
          "set -e".data ++ ("; ".data ++ (joinSep " " ((normalizeKeys secrets).map fun k =>
            "export " ++ k ++ "=\"$(cat /run/secrets/" ++ k ++ ")\";")).data ++
            (" ".data ++ (goTrim cmd).data)) := by
        simp only [String.data_append, List.append_assoc]
        rfl
      rw [hd]
      exact List.prefix_append _ _
    · exact unescape_escQuote _
    · rw [strHasSuffix, List.isSuffixOf_iff_suffix]
      have hd : ("set -e; " ++ joinSep " " ((normalizeKeys secrets).map fun k =>
          "export " ++ k ++ "=\"$(cat /run/secrets/" ++ k ++ ")\";") ++ " " ++ goTrim cmd).data =
          ("set -e; ".data ++ (joinSep " " ((normalizeKeys secrets).map fun k =>
            "export " ++ k ++ "=\"$(cat /run/secrets/" ++ k ++ ")\";")).data) ++
            (" " ++ goTrim cmd).data := by
        simp [String.data_append, List.append_assoc]
      rw [hd]
      exact List.suffix_append _ _
    · intro k hk
      constructor
      · rw [strContains]
        apply (infixOf_iff _ _).mpr
        exact mem_joinSep_middle " " _ _
          (List.mem_map_of_mem (fun k => "--mount=type=secret,id=" ++ k) hk)
      · rw [strContains]
        apply (infixOf_iff _ _).mpr
        refine (mem_joinSep_middle " " _ _
          (List.mem_map_of_mem (fun k => "export " ++ k ++ "=\"$(cat /run/secrets/" ++ k ++ ")\";") hk)).trans ?_
        have hd : ("set -e; " ++ joinSep " " ((normalizeKeys secrets).map fun k =>
            "export " ++ k ++ "=\"$(cat /run/secrets/" ++ k ++ ")\";") ++ " " ++ goTrim cmd).data =
            "set -e; ".data ++ (joinSep " " ((normalizeKeys secrets).map fun k =>
              "export " ++ k ++ "=\"$(cat /run/secrets/" ++ k ++ ")\";")).data ++
              (" " ++ goTrim cmd).data := by
          simp [String.data_append, List.append_assoc]
        rw [hd]
        exact List.infix_append _ _ _

/-- C5 (amended): for every runtime routed through the application recipe
generator — node, python, go, bun and java; the static recipe is fixed and
ignores the command slots, see the counterexample — and every prebuild or
build command that is non-empty after trimming: with no secret keys the
recipe contains the plain line `RUN <trimmed command>`, and with secret keys
it contains a RUN line carrying a `--mount=type=secret,id=<key>` flag for
every (normalized) secret key and a single-quoted `sh -c` wrapper whose
payload begins with `set -e`, exports each key from `/run/secrets`, ends
with the command, and has every single quote escaped (the escaped text
decodes back to the payload). -/
theorem dockerfile_secret_wiring :
    ∀ rt ∈ (["node", "python", "go", "bun", "java"] : List String),
    ∀ version pre bld run : String, ∀ args secrets : List String, ∀ out : String,
      GenerateDockerfileWithBuildEnv rt version pre bld run args secrets = Except.ok out →
      ∀ cmd ∈ [pre, bld], goTrim cmd ≠ "" →
        (normalizeKeys secrets = [] →
          strContains out ("RUN " ++ goTrim cmd ++ "\n") = true) ∧
        (normalizeKeys secrets ≠ [] →
          ∃ mounts payload : String,
            strContains out
              ("RUN " ++ mounts ++ " sh -c '" ++ escapeSingleQuotes payload ++ "'\n") = true ∧
            strHasPrefix payload "set -e" = true ∧
            unescapeSingleQuotes (escapeSingleQuotes payload).data = some payload.data ∧
            strHasSuffix payload (" " ++ goTrim cmd) = true ∧
            (∀ k ∈ normalizeKeys secrets,
              strContains mounts ("--mount=type=secret,id=" ++ k) = true ∧
              strContains payload
                ("export " ++ k ++ "=\"$(cat /run/secrets/" ++ k ++ ")\";") = true)) := by
  intro rt hrt version pre bld run args secrets out hok
  have hrt5 : rt = "node" ∨ rt = "python" ∨ rt = "go" ∨ rt = "bun" ∨ rt = "java" := by
    simpa using hrt
  rcases hrt5 with rfl | rfl | rfl | rfl | rfl
  · rw [show GenerateDockerfileWithBuildEnv "node" version pre bld run args secrets =
        Except.ok (generateAppDockerfile ("node:" ++ version ++ "-alpine") "/app" "3000"
          pre bld run args secrets) from rfl] at hok
    injection hok with hh
    subst hh
    exact generateApp_secret_wiring _ _ _ pre bld run args secrets
  · rw [show GenerateDockerfileWithBuildEnv "python" version pre bld run args secrets =
        Except.ok (generateAppDockerfile ("python:" ++ version ++ "-slim") "/app" "8000"
          pre bld run args secrets) from rfl] at hok
    injection hok with hh
    subst hh
    exact generateApp_secret_wiring _ _ _ pre bld run args secrets
  · rw [show GenerateDockerfileWithBuildEnv "go" version pre bld run args secrets =
        Except.ok (generateAppDockerfile ("golang:" ++ version ++ "-alpine") "/app" "8080"
          pre bld run args secrets) from rfl] at hok
    injection hok with hh
    subst hh
    exact generateApp_secret_wiring _ _ _ pre bld run args secrets
  · rw [show GenerateDockerfileWithBuildEnv "bun" version pre bld run args secrets =
        Except.ok (generateAppDockerfile ("oven/bun:" ++ version) "/app" "3000"
          pre bld run args secrets) from rfl] at hok
    injection hok with hh
    subst hh
    exact generateApp_secret_wiring _ _ _ pre bld run args secrets
  · rw [show GenerateDockerfileWithBuildEnv "java" version pre bld run args secrets =
        Except.ok (generateAppDockerfile (selectJavaBaseImage version pre bld) "/app" "8080"
          pre bld run args secrets) from rfl] at hok
    injection hok with hh
    subst hh
    exact generateApp_secret_wiring _ _ _ pre bld run args secrets

/-- C5 counterexample to the unamended claim: `static` is a supported
runtime, but its fixed recipe ignores a non-empty prebuild command and
contains no RUN line for it. -/
theorem dockerfile_secret_wiring_cex :
    GenerateDockerfileWithBuildEnv "static" "latest" "npm ci" "" "" [] [] =
      Except.ok generateStaticDockerfile ∧
    goTrim "npm ci" ≠ "" ∧
    strContains generateStaticDockerfile ("RUN " ++ goTrim "npm ci" ++ "\n") = false :=
  ⟨rfl, by decide, by decide⟩

/-- Witness: the amended secret-wiring theorem applied to a concrete node
recipe with no secret keys. -/
theorem dockerfile_secret_wiring_witness :
    strContains
      (generateAppDockerfile "node:22-alpine" "/app" "3000" "npm ci" "npm run build"
        "npm start" [] [])
      ("RUN " ++ goTrim "npm ci" ++ "\n") = true :=
  (dockerfile_secret_wiring "node" (by decide) "22" "npm ci" "npm run build" "npm start"
    [] []
    (generateAppDockerfile "node:22-alpine" "/app" "3000" "npm ci" "npm run build"
      "npm start" [] [])
    rfl "npm ci" (by decide) (by decide)).1 (by decide)

/-! ## Image tag format -/

theorem takeWhile_append_all {p : Char → Bool} {a : List Char}
    (ha : ∀ x ∈ a, p x = true) {c : Char} (hc : p c = false) (b : List Char) :
    (a ++ c :: b).takeWhile p = a ∧ (a ++ c :: b).dropWhile p = c :: b := by
  induction a with
  | nil => simp [List.takeWhile_cons, List.dropWhile_cons, hc]
  | cons x xs ih =>
    have hx : p x = true := ha x (by simp)
    have ih' := ih fun y hy => ha y (by simp [hy])
    simp [List.takeWhile_cons, List.dropWhile_cons, hx, ih'.1, ih'.2]

theorem digitChar_isDigit {n : Nat} (h : n < 10) :
    isAsciiDigit (Nat.digitChar n) = true := by
  interval_cases n <;> decide

theorem pad2_digits (n : Nat) :
    (pad2 n).data.length = 2 ∧ (pad2 n).data.all isAsciiDigit = true := by
  refine ⟨rfl, ?_⟩
  have h1 : n / 10 % 10 < 10 := Nat.mod_lt _ (by norm_num)
  have h2 : n % 10 < 10 := Nat.mod_lt _ (by norm_num)
  simp [pad2, digitChar_isDigit h1, digitChar_isDigit h2]

theorem pad4_digits (n : Nat) :
    (pad4 n).data.length = 4 ∧ (pad4 n).data.all isAsciiDigit = true := by
  refine ⟨rfl, ?_⟩
  have h1 : n / 1000 % 10 < 10 := Nat.mod_lt _ (by norm_num)
  have h2 : n / 100 % 10 < 10 := Nat.mod_lt _ (by norm_num)
  have h3 : n / 10 % 10 < 10 := Nat.mod_lt _ (by norm_num)
  have h4 : n % 10 < 10 := Nat.mod_lt _ (by norm_num)
  simp [pad4, digitChar_isDigit h1, digitChar_isDigit h2, digitChar_isDigit h3,
    digitChar_isDigit h4]

theorem formatBuildTimestamp_shape (t : UTCTime) :
    ∃ d8 d6 : List Char,
      (formatBuildTimestamp t).data = d8 ++ 'T' :: (d6 ++ ['Z']) ∧
      d8.length = 8 ∧ d8.all isAsciiDigit = true ∧
      d6.length = 6 ∧ d6.all isAsciiDigit = true := by
  refine ⟨(pad4 t.year).data ++ (pad2 t.month).data ++ (pad2 t.day).data,
    (pad2 t.hour).data ++ (pad2 t.minute).data ++ (pad2 t.second).data, ?_, ?_, ?_, ?_, ?_⟩
  · rw [formatBuildTimestamp]
    simp [String.data_append, List.append_assoc]
  · simp [List.length_append, (pad4_digits t.year).1, (pad2_digits t.month).1,
      (pad2_digits t.day).1]
  · simp [List.all_append, (pad4_digits t.year).2, (pad2_digits t.month).2,
      (pad2_digits t.day).2]
  · simp [List.length_append, (pad2_digits t.hour).1, (pad2_digits t.minute).1,
      (pad2_digits t.second).1]
  · simp [List.all_append, (pad2_digits t.hour).2, (pad2_digits t.minute).2,
      (pad2_digits t.second).2]

theorem data_isEmpty_false {s : String} (h : s ≠ "") : s.data.isEmpty = false := by
  cases hd : s.data with
  | nil =>
    exact absurd (String.ext (hd.trans rfl)) h
  | cons c cs => rfl

/-- C6 (amended): for every job whose registry is non-empty and free of `/`,
whose sanitized user and project ids are non-empty and consist of
`[a-z0-9-]` characters, whose commit sha consists of lowercase hex
characters, and whose job id is non-empty and free of `-`, the generated
image tag is `<registry>/<sanitizedUserId>/<sanitizedProjectId>:<shortSha>
-b<jobId>-v<timestamp>` — shortSha the first twelve characters of the sha
(all of it when shorter), ids sanitized by lowercasing and replacing `_`
with `-`, the timestamp UTC `YYYYMMDDThhmmssZ` — and matches the spec's
regular expression. Without these conditions the regular expression can
fail, see the counterexample (a job id containing `-`). -/
theorem imageTagMatchesFormat_build (reg u p S j : String) (d8 d6 : List Char)
    (hreg1 : reg.data ≠ []) (hreg2 : ∀ c ∈ reg.data, c ≠ '/')
    (hu1 : u.data ≠ []) (hu2 : ∀ c ∈ u.data, isTagSegChar c = true)
    (hp1 : p.data ≠ []) (hp2 : ∀ c ∈ p.data, isTagSegChar c = true)
    (hS : ∀ c ∈ S.data, isHexLowerChar c = true) (hSlen : S.data.length ≤ 12)
    (hj1 : j.data ≠ []) (hj2 : ∀ c ∈ j.data, c ≠ '-')
    (h8l : d8.length = 8) (h8d : d8.all isAsciiDigit = true)
    (h6l : d6.length = 6) (h6d : d6.all isAsciiDigit = true) :
    imageTagMatchesFormat ⟨reg.data ++ '/' :: (u.data ++ '/' :: (p.data ++ ':' ::
      (S.data ++ '-' :: 'b' :: (j.data ++ '-' :: 'v' ::
        (d8 ++ 'T' :: (d6 ++ ['Z']))))))⟩ = true := by
  have ha1 : ∀ x ∈ reg.data, (fun c => !(c == '/')) x = true := by
    intro x hx; simpa using hreg2 x hx
  obtain ⟨e1t, e1d⟩ := takeWhile_append_all ha1
    (show (fun c => !(c == '/')) '/' = false by decide)
    (u.data ++ '/' :: (p.data ++ ':' :: (S.data ++ '-' :: 'b' :: (j.data ++ '-' :: 'v' ::
      (d8 ++ 'T' :: (d6 ++ ['Z']))))))
  obtain ⟨e2t, e2d⟩ := takeWhile_append_all hu2
    (show isTagSegChar '/' = false by decide)
    (p.data ++ ':' :: (S.data ++ '-' :: 'b' :: (j.data ++ '-' :: 'v' ::
      (d8 ++ 'T' :: (d6 ++ ['Z'])))))
  obtain ⟨e3t, e3d⟩ := takeWhile_append_all hp2
    (show isTagSegChar ':' = false by decide)
    (S.data ++ '-' :: 'b' :: (j.data ++ '-' :: 'v' :: (d8 ++ 'T' :: (d6 ++ ['Z']))))
  obtain ⟨e4t, e4d⟩ := takeWhile_append_all hS
    (show isHexLowerChar '-' = false by decide)
    ('b' :: (j.data ++ '-' :: 'v' :: (d8 ++ 'T' :: (d6 ++ ['Z']))))
  have ha5 : ∀ x ∈ j.data, (fun c => !(c == '-')) x = true := by
    intro x hx; simpa using hj2 x hx
  obtain ⟨e5t, e5d⟩ := takeWhile_append_all ha5
    (show (fun c => !(c == '-')) '-' = false by decide)
    ('v' :: (d8 ++ 'T' :: (d6 ++ ['Z'])))
  have htake8 : (d8 ++ 'T' :: (d6 ++ ['Z'])).take 8 = d8 := by
    rw [← h8l]; exact List.take_left _ _
  have hdrop8 : (d8 ++ 'T' :: (d6 ++ ['Z'])).drop 8 = 'T' :: (d6 ++ ['Z']) := by
    rw [← h8l]; exact List.drop_left _ _
  have htake6 : (d6 ++ ['Z']).take 6 = d6 := by
    rw [← h6l]; exact List.take_left _ _
  have hdrop6 : (d6 ++ ['Z']).drop 6 = ['Z'] := by
    rw [← h6l]; exact List.drop_left _ _
  rw [imageTagMatchesFormat]
  simp only [e1t, e1d, e2t, e2d, e3t, e3d, e4t, e4d, e5t, e5d, htake8, hdrop8,
    htake6, hdrop6]
  simp [List.isEmpty_iff, hreg1, hu1, hp1, hj1, hSlen, h8d, h6d, h8l, h6l]
  exact hSlen

/-- C6 (amended): for every job whose registry is non-empty and free of `/`,
whose sanitized user and project ids are non-empty and consist of
`[a-z0-9-]` characters, whose commit sha consists of lowercase hex
characters, and whose job id is non-empty and free of `-`, the generated
image tag is the concatenation
`<registry>/<sanUserId>/<sanProjectId>:<shortSha>-b<jobId>-v<timestamp>` —
shortSha the first twelve characters of the sha (all of it when shorter),
ids sanitized by lowercasing and replacing `_` with `-`, the timestamp UTC
`YYYYMMDDThhmmssZ` — and it matches the spec's regular expression. Without
these conditions the expression can fail, see the counterexample. -/
theorem generateImageTag_format (registry userId projectId jobId commitSha : String)
    (t : UTCTime)
    (hreg1 : registry ≠ "") (hreg2 : ∀ c ∈ registry.data, c ≠ '/')
    (hu1 : sanitize userId ≠ "")
    (hu2 : ∀ c ∈ (sanitize userId).data, isTagSegChar c = true)
    (hp1 : sanitize projectId ≠ "")
    (hp2 : ∀ c ∈ (sanitize projectId).data, isTagSegChar c = true)
    (hsha : ∀ c ∈ commitSha.data, isHexLowerChar c = true)
    (hj1 : jobId ≠ "") (hj2 : ∀ c ∈ jobId.data, c ≠ '-') :
    generateImageTag registry userId projectId jobId commitSha t =
      registry ++ "/" ++ sanitize userId ++ "/" ++ sanitize projectId ++ ":" ++
        (if commitSha.data.length > 12 then (⟨commitSha.data.take 12⟩ : String)
          else commitSha) ++ "-b" ++ jobId ++ "-v" ++ formatBuildTimestamp t ∧
    imageTagMatchesFormat (generateImageTag registry userId projectId jobId commitSha t) =
      true := by
  refine ⟨rfl, ?_⟩
  obtain ⟨d8, d6, hts, h8l, h8d, h6l, h6d⟩ := formatBuildTimestamp_shape t
  have hSlen : (if commitSha.data.length > 12 then (⟨commitSha.data.take 12⟩ : String)
      else commitSha).data.length ≤ 12 := by
    by_cases hgt : commitSha.data.length > 12
    · rw [if_pos hgt]
      show (commitSha.data.take 12).length ≤ 12
      simp [List.length_take]
    · rw [if_neg hgt]
      omega
  have hShex : ∀ c ∈ (if commitSha.data.length > 12 then (⟨commitSha.data.take 12⟩ : String)
      else commitSha).data, isHexLowerChar c = true := by
    by_cases hgt : commitSha.data.length > 12
    · rw [if_pos hgt]
      intro c hc
      exact hsha c ((List.take_prefix _ _).subset hc)
    · rw [if_neg hgt]
      exact hsha
  have htag : generateImageTag registry userId projectId jobId commitSha t =
      ⟨registry.data ++ '/' :: ((sanitize userId).data ++ '/' ::
        ((sanitize projectId).data ++ ':' ::
          ((if commitSha.data.length > 12 then (⟨commitSha.data.take 12⟩ : String)
              else commitSha).data ++ '-' :: 'b' :: (jobId.data ++ '-' :: 'v' ::
            (d8 ++ 'T' :: (d6 ++ ['Z']))))))⟩ := by
    apply String.ext
    rw [← hts]
    simp [generateImageTag, String.data_append, List.append_assoc]
  rw [htag]
  exact imageTagMatchesFormat_build registry (sanitize userId) (sanitize projectId)
    (if commitSha.data.length > 12 then (⟨commitSha.data.take 12⟩ : String) else commitSha)
    jobId d8 d6
    (fun hnil => hreg1 (String.ext (hnil.trans rfl))) hreg2
    (fun hnil => hu1 (String.ext (hnil.trans rfl))) hu2
    (fun hnil => hp1 (String.ext (hnil.trans rfl))) hp2
    hShex hSlen
    (fun hnil => hj1 (String.ext (hnil.trans rfl))) hj2
    h8l h8d h6l h6d

/-- C6 counterexample to the unamended claim: a job id containing `-` (here
`a-b`) produces a tag that the spec's regular expression rejects, because
the `-b<jobId>` segment can no longer be parsed as `-b[^-]+`. -/
theorem generateImageTag_format_cex :
    imageTagMatchesFormat
      (generateImageTag "reg" "user" "proj" "a-b" "abcdef" ⟨2025, 1, 2, 3, 4, 5⟩) = false := by
  decide

/-- Witness: the amended tag-format theorem applied to a concrete job with a
registry carrying a port, ids needing sanitization, and a 16-character sha. -/
theorem generateImageTag_format_witness :
    imageTagMatchesFormat
      (generateImageTag "registry:5000" "User_1" "Proj_2" "job1" "0123456789abcdef"
        ⟨2025, 10, 11, 7, 8, 9⟩) = true :=
  (generateImageTag_format "registry:5000" "User_1" "Proj_2" "job1" "0123456789abcdef"
    ⟨2025, 10, 11, 7, 8, 9⟩ (by decide) (by decide) (by decide) (by decide) (by decide)
    (by decide) (by decide) (by decide) (by decide)).2

/-! ## Environment planner: order and map lemmas -/

theorem charToNat_inj {a b : Char} (h : a.toNat = b.toNat) : a = b :=
  Char.eq_of_val_eq (UInt32.toBitVec_injective (BitVec.eq_of_toNat_eq h))

theorem lexLe_total : ∀ a b : List Char, lexLe a b = true ∨ lexLe b a = true := by
  intro a
  induction a with
  | nil => intro b; left; rfl
  | cons x xs ih =>
    intro b
    cases b with
    | nil => right; rfl
    | cons y ys =>
      by_cases hxy : x = y
      · subst hxy
        rcases ih ys with h | h
        · left; simp [lexLe, h]
        · right; simp [lexLe, h]
      · have hyx : ¬y = x := fun h => hxy h.symm
        have hne : x.toNat ≠ y.toNat := fun hc => hxy (charToNat_inj hc)
        rcases Nat.lt_or_ge x.toNat y.toNat with h | h
        · left; simp [lexLe, hxy, h]
        · have hlt : y.toNat < x.toNat := lt_of_le_of_ne h (fun hc => hne hc.symm)
          right; simp [lexLe, hyx, hlt]

theorem lexLe_trans :
    ∀ a b c : List Char, lexLe a b = true → lexLe b c = true → lexLe a c = true := by
  intro a
  induction a with
  | nil => intro b c _ _; rfl
  | cons x xs ih =>
    intro b c hab hbc
    cases b with
    | nil => simp [lexLe] at hab
    | cons y ys =>
      cases c with
      | nil => simp [lexLe] at hbc
      | cons z zs =>
        by_cases hxy : x = y
        · subst hxy
          by_cases hxz : x = z
          · subst hxz
            simp only [lexLe, if_pos rfl] at hab hbc ⊢
            exact ih ys zs hab hbc
          · simp only [lexLe, if_pos rfl] at hab
            simp only [lexLe, if_neg hxz] at hbc ⊢
            exact hbc
        · by_cases hyz : y = z
          · subst hyz
            simp only [lexLe, if_neg hxy] at hab ⊢
            exact hab
          · simp only [lexLe, if_neg hxy] at hab
            simp only [lexLe, if_neg hyz] at hbc
            have h1 : x.toNat < y.toNat := of_decide_eq_true hab
            have h2 : y.toNat < z.toNat := of_decide_eq_true hbc
            have h3 : x.toNat < z.toNat := lt_trans h1 h2
            have hxz : ¬x = z := fun hc => absurd h3 (by rw [hc]; exact lt_irrefl _)
            simp [lexLe, hxz, h3]

theorem lexLe_antisymm :
    ∀ a b : List Char, lexLe a b = true → lexLe b a = true → a = b := by
  intro a
  induction a with
  | nil =>
    intro b _ hba
    cases b with
    | nil => rfl
    | cons y ys => simp [lexLe] at hba
  | cons x xs ih =>
    intro b hab hba
    cases b with
    | nil => simp [lexLe] at hab
    | cons y ys =>
      by_cases hxy : x = y
      · subst hxy
        simp only [lexLe, if_pos rfl] at hab hba
        rw [ih ys hab hba]
      · have hyx : ¬y = x := fun h => hxy h.symm
        simp only [lexLe, if_neg hxy] at hab
        simp only [lexLe, if_neg hyx] at hba
        have h1 : x.toNat < y.toNat := of_decide_eq_true hab
        have h2 : y.toNat < x.toNat := of_decide_eq_true hba
        exact absurd (lt_trans h1 h2) (lt_irrefl _)

theorem sortStrings_perm (l : List String) : (sortStrings l).Perm l :=
  List.perm_insertionSort _ _

theorem sortStrings_sorted (l : List String) : List.Pairwise strLeP (sortStrings l) := by
  haveI h1 : IsTotal String strLeP := ⟨fun a b => lexLe_total a.data b.data⟩
  haveI h2 : IsTrans String strLeP := ⟨fun a b c => lexLe_trans a.data b.data c.data⟩
  exact List.sorted_insertionSort _ _

theorem sortEntries_perm (l : List ResolvedEnvVar) :
    (List.insertionSort entryLeP l).Perm l :=
  List.perm_insertionSort _ _

theorem sortEntries_sorted (l : List ResolvedEnvVar) :
    List.Pairwise entryLeP (List.insertionSort entryLeP l) := by
  haveI h1 : IsTotal ResolvedEnvVar entryLeP :=
    ⟨fun a b => lexLe_total a.key.data b.key.data⟩
  haveI h2 : IsTrans ResolvedEnvVar entryLeP :=
    ⟨fun a b c => lexLe_trans a.key.data b.key.data c.key.data⟩
  exact List.sorted_insertionSort _ _

theorem insertReplace_keys (m : List (String × String)) (k v : String) :
    (insertReplace m k v).map (·.1) =
      if m.any (fun kv => kv.1 == k) then m.map (·.1) else m.map (·.1) ++ [k] := by
  rw [insertReplace]
  by_cases h : m.any (fun kv => kv.1 == k)
  · rw [if_pos h, if_pos h, List.map_map]
    apply List.map_congr_left
    intro kv _
    by_cases hkv : kv.1 == k
    · simp only [Function.comp_apply, if_pos hkv]
      exact (beq_iff_eq.mp hkv).symm
    · simp only [Function.comp_apply, if_neg hkv]
  · rw [if_neg h, if_neg h, List.map_append]
    rfl

theorem insertReplace_mem_keys (m : List (String × String)) (k v x : String) :
    x ∈ (insertReplace m k v).map (·.1) ↔ x ∈ m.map (·.1) ∨ x = k := by
  rw [insertReplace_keys]
  by_cases h : m.any (fun kv => kv.1 == k)
  · rw [if_pos h]
    have hk : k ∈ m.map (·.1) := by
      rcases List.any_eq_true.mp h with ⟨kv, hkv, hbeq⟩
      exact List.mem_map.mpr ⟨kv, hkv, beq_iff_eq.mp hbeq⟩
    constructor
    · intro hx; exact Or.inl hx
    · rintro (hx | rfl)
      · exact hx
      · exact hk
  · rw [if_neg h]
    simp

theorem insertReplace_nodup (m : List (String × String)) (k v : String)
    (h : (m.map (·.1)).Nodup) : ((insertReplace m k v).map (·.1)).Nodup := by
  rw [insertReplace_keys]
  by_cases hany : m.any (fun kv => kv.1 == k)
  · rw [if_pos hany]; exact h
  · rw [if_neg hany]
    have hk : k ∉ m.map (·.1) := by
      intro hmem
      rcases List.mem_map.mp hmem with ⟨kv, hkv, hfst⟩
      exact hany (List.any_eq_true.mpr ⟨kv, hkv, beq_iff_eq.mpr hfst⟩)
    simp [List.nodup_append, h, hk]

theorem normalizeFold_mem (env : List (String × String)) :
    ∀ (acc : List (String × String)) (x : String),
      (x ∈ ((env.foldl (fun acc kv =>
          let t := goTrim kv.1
          if t = "" then acc else insertReplace acc t kv.2) acc).map (·.1))) ↔
        (x ∈ acc.map (·.1) ∨ ∃ kv ∈ env, goTrim kv.1 = x ∧ x ≠ "") := by
  induction env with
  | nil => simp
  | cons kv0 rest ih =>
    intro acc x
    rw [List.foldl_cons]
    have hstep : (let t := goTrim kv0.1
        if t = "" then acc else insertReplace acc t kv0.2)
        = if goTrim kv0.1 = "" then acc else insertReplace acc (goTrim kv0.1) kv0.2 := rfl
    rw [hstep]
    by_cases ht : goTrim kv0.1 = ""
    · rw [if_pos ht, ih acc x]
      constructor
      · rintro (h | ⟨kv, hkv, hgx⟩)
        · exact Or.inl h
        · exact Or.inr ⟨kv, List.mem_cons_of_mem _ hkv, hgx⟩
      · rintro (h | ⟨kv, hkv, hgx, hxne⟩)
        · exact Or.inl h
        · rcases List.mem_cons.mp hkv with rfl | hkv'
          · rw [ht] at hgx
            exact absurd hgx.symm hxne
          · exact Or.inr ⟨kv, hkv', hgx, hxne⟩
    · rw [if_neg ht, ih _ x, insertReplace_mem_keys]
      constructor
      · rintro ((h | rfl) | ⟨kv, hkv, hgx⟩)
        · exact Or.inl h
        · exact Or.inr ⟨kv0, List.mem_cons_self _ _, rfl, ht⟩
        · exact Or.inr ⟨kv, List.mem_cons_of_mem _ hkv, hgx⟩
      · rintro (h | ⟨kv, hkv, hgx, hxne⟩)
        · exact Or.inl (Or.inl h)
        · rcases List.mem_cons.mp hkv with rfl | hkv'
          · exact Or.inl (Or.inr hgx.symm)
          · exact Or.inr ⟨kv, hkv', hgx, hxne⟩

theorem normalizeFold_nodup (env : List (String × String)) :
    ∀ (acc : List (String × String)), (acc.map (·.1)).Nodup →
      ((env.foldl (fun acc kv =>
          let t := goTrim kv.1
          if t = "" then acc else insertReplace acc t kv.2) acc).map (·.1)).Nodup := by
  induction env with
  | nil => intro acc h; exact h
  | cons kv0 rest ih =>
    intro acc h
    rw [List.foldl_cons]
    have hstep : (let t := goTrim kv0.1
        if t = "" then acc else insertReplace acc t kv0.2)
        = if goTrim kv0.1 = "" then acc else insertReplace acc (goTrim kv0.1) kv0.2 := rfl
    rw [hstep]
    by_cases ht : goTrim kv0.1 = ""
    · rw [if_pos ht]; exact ih acc h
    · rw [if_neg ht]; exact ih _ (insertReplace_nodup acc _ _ h)

theorem normalizeEnv_mem (env : List (String × String)) (x : String) :
    x ∈ (normalizeEnv env).map (·.1) ↔ ∃ kv ∈ env, goTrim kv.1 = x ∧ x ≠ "" := by
  rw [normalizeEnv, normalizeFold_mem env [] x]
  simp

theorem normalizeEnv_nodup (env : List (String × String)) :
    ((normalizeEnv env).map (·.1)).Nodup := by
  rw [normalizeEnv]
  exact normalizeFold_nodup env [] (by simp)

theorem applyEnvOverride_key (ov : Option EnvOverride) (k scope : String) (sec : Bool)
    (reason : String) : (applyEnvOverride ov k scope sec reason).key = k := by
  cases ov with
  | none => rfl
  | some o =>
    cases ho : o.secret with
    | none => simp [applyEnvOverride, ho]
    | some b => simp [applyEnvOverride, ho]

theorem resolveEntry_key (hints : BuildHints) (overrides : List (String × EnvOverride))
    (key : String) : (resolveEntry hints overrides key).key = key := by
  rw [show resolveEntry hints overrides key = applyEnvOverride (lookupAssoc overrides key) key
      (classifyScope (goToUpper key) hints).1
      (if strHasPrefix (classifyScope (goToUpper key) hints).2 "dockerfile-arg" then false
       else classifySecret (goToUpper key))
      (classifyScope (goToUpper key) hints).2 from rfl]
  exact applyEnvOverride_key _ _ _ _ _

theorem applyEnvOverride_spec (o : EnvOverride) (k scope : String) (sec : Bool)
    (reason : String) :
    (o.scope ≠ "" → (applyEnvOverride (some o) k scope sec reason).scope = o.scope ∧
        strContains (applyEnvOverride (some o) k scope sec reason).reason "+override-scope" = true) ∧
    (∀ b, o.secret = some b → (applyEnvOverride (some o) k scope sec reason).secret = b ∧
        strContains (applyEnvOverride (some o) k scope sec reason).reason "+override-secret" = true) := by
  by_cases hs : o.scope = ""
  · cases hsec : o.secret with
    | none =>
      refine ⟨fun hns => absurd hs hns, fun b hb => ?_⟩
      cases hb
    | some b0 =>
      refine ⟨fun hns => absurd hs hns, fun b hb => ?_⟩
      injection hb with hb; subst hb
      constructor
      · simp [applyEnvOverride, hsec, hs]
      · have hr : (applyEnvOverride (some o) k scope sec reason).reason
            = reason ++ "+override-secret" := by
          simp [applyEnvOverride, hsec, hs]
        rw [hr]
        exact strContains_of_eq_append _ _ reason "" (String.append_empty _).symm
  · cases hsec : o.secret with
    | none =>
      refine ⟨fun _ => ?_, fun b hb => ?_⟩
      · constructor
        · simp [applyEnvOverride, hsec, hs]
        · have hr : (applyEnvOverride (some o) k scope sec reason).reason
              = reason ++ "+override-scope" := by
            simp [applyEnvOverride, hsec, hs]
          rw [hr]
          exact strContains_of_eq_append _ _ reason "" (String.append_empty _).symm
      · cases hb
    | some b0 =>
      refine ⟨fun _ => ?_, fun b hb => ?_⟩
      · constructor
        · simp [applyEnvOverride, hsec, hs]
        · have hr : (applyEnvOverride (some o) k scope sec reason).reason
              = reason ++ "+override-scope" ++ "+override-secret" := by
            simp [applyEnvOverride, hsec, hs]
          rw [hr]
          exact strContains_of_eq_append _ _ reason "+override-secret" rfl
      · injection hb with hb; subst hb
        constructor
        · simp [applyEnvOverride, hsec, hs]
        · have hr : (applyEnvOverride (some o) k scope sec reason).reason
              = reason ++ "+override-scope" ++ "+override-secret" := by
            simp [applyEnvOverride, hsec, hs]
          rw [hr]
          exact strContains_of_eq_append _ _ (reason ++ "+override-scope") ""
            (String.append_empty _).symm

theorem Resolve_eq (hints : BuildHints) (env : List (String × String))
    (overrides : List (String × EnvOverride)) (h : env.isEmpty = false) :
    Resolve hints env overrides =
      ⟨(sortStrings ((normalizeEnv env).map (·.1))).filterMap (fun k =>
          if ((resolveEntry hints overrides k).scope = "build"
                || (resolveEntry hints overrides k).scope = "both")
              && !(resolveEntry hints overrides k).secret
          then some (k, (lookupAssoc (normalizeEnv env) k).getD "") else none),
        (sortStrings ((normalizeEnv env).map (·.1))).filterMap (fun k =>
          if ((resolveEntry hints overrides k).scope = "build"
                || (resolveEntry hints overrides k).scope = "both")
              && (resolveEntry hints overrides k).secret
          then some (k, (lookupAssoc (normalizeEnv env) k).getD "") else none),
        List.insertionSort entryLeP
          ((sortStrings ((normalizeEnv env).map (·.1))).map (resolveEntry hints overrides))⟩ := by
  rw [Resolve, h]
  rfl

theorem mem_map_fst_filterMap (f : String → Option (String × String))
    (cond : String → Bool) (val : String → String)
    (hf : ∀ k, f k = if cond k then some (k, val k) else none) :
    ∀ (keys : List String) (x : String),
      (x ∈ (keys.filterMap f).map (fun p => p.1)) ↔ ∃ k ∈ keys, cond k = true ∧ x = k := by
  intro keys x
  induction keys with
  | nil => simp
  | cons a as ih =>
    have hfc : (a :: as).filterMap f
        = (if cond a then [(a, val a)] else []) ++ as.filterMap f := by
      rw [List.filterMap_cons, hf a]
      by_cases hc : cond a
      · rw [if_pos hc, if_pos hc]; rfl
      · rw [if_neg hc, if_neg hc]; rfl
    rw [hfc]
    by_cases hc : cond a
    · rw [if_pos hc, List.singleton_append, List.map_cons]
      constructor
      · intro hmem
        rcases List.mem_cons.mp hmem with h1 | h2
        · exact ⟨a, List.mem_cons_self _ _, hc, h1⟩
        · rcases ih.mp h2 with ⟨k, hk, hck, hx⟩
          exact ⟨k, List.mem_cons_of_mem _ hk, hck, hx⟩
      · rintro ⟨k, hk, hck, hx⟩
        rcases List.mem_cons.mp hk with rfl | hk'
        · exact List.mem_cons.mpr (Or.inl hx)
        · exact List.mem_cons.mpr (Or.inr (ih.mpr ⟨k, hk', hck, hx⟩))
    · rw [if_neg hc, List.nil_append]
      constructor
      · intro hmem
        rcases ih.mp hmem with ⟨k, hk, hck, hx⟩
        exact ⟨k, List.mem_cons_of_mem _ hk, hck, hx⟩
      · rintro ⟨k, hk, hck, hx⟩
        rcases List.mem_cons.mp hk with rfl | hk'
        · exact absurd hck hc
        · exact ih.mpr ⟨k, hk', hck, hx⟩

theorem Resolve_entries_eq (hints : BuildHints) (env : List (String × String))
    (overrides : List (String × EnvOverride)) (h : env.isEmpty = false) :
    (Resolve hints env overrides).entries = List.insertionSort entryLeP
      ((sortStrings ((normalizeEnv env).map (·.1))).map (resolveEntry hints overrides)) := by
  rw [Resolve_eq hints env overrides h]

theorem Resolve_buildArgs_eq (hints : BuildHints) (env : List (String × String))
    (overrides : List (String × EnvOverride)) (h : env.isEmpty = false) :
    (Resolve hints env overrides).buildArgs =
      (sortStrings ((normalizeEnv env).map (·.1))).filterMap (fun k =>
        if ((resolveEntry hints overrides k).scope = "build"
              || (resolveEntry hints overrides k).scope = "both")
            && !(resolveEntry hints overrides k).secret
        then some (k, (lookupAssoc (normalizeEnv env) k).getD "") else none) := by
  rw [Resolve_eq hints env overrides h]

theorem Resolve_buildSecrets_eq (hints : BuildHints) (env : List (String × String))
    (overrides : List (String × EnvOverride)) (h : env.isEmpty = false) :
    (Resolve hints env overrides).buildSecrets =
      (sortStrings ((normalizeEnv env).map (·.1))).filterMap (fun k =>
        if ((resolveEntry hints overrides k).scope = "build"
              || (resolveEntry hints overrides k).scope = "both")
            && (resolveEntry hints overrides k).secret
        then some (k, (lookupAssoc (normalizeEnv env) k).getD "") else none) := by
  rw [Resolve_eq hints env overrides h]

theorem Resolve_entries_mem (hints : BuildHints) (env : List (String × String))
    (overrides : List (String × EnvOverride)) (e : ResolvedEnvVar) :
    e ∈ (Resolve hints env overrides).entries ↔
      ∃ k, (∃ kv ∈ env, goTrim kv.1 = k ∧ k ≠ "") ∧ e = resolveEntry hints overrides k := by
  by_cases henv : env.isEmpty
  · have henv' : env = [] := List.isEmpty_iff.mp henv
    subst henv'
    rw [Resolve]
    simp
  · rw [Resolve_entries_eq hints env overrides (Bool.eq_false_iff.mpr henv)]
    rw [(sortEntries_perm _).mem_iff, List.mem_map]
    constructor
    · rintro ⟨k, hk, rfl⟩
      have hk' : k ∈ (normalizeEnv env).map (·.1) := (sortStrings_perm _).mem_iff.mp hk
      rcases (normalizeEnv_mem env k).mp hk' with ⟨kv, hkv, hgt, hne⟩
      exact ⟨k, ⟨kv, hkv, hgt, hne⟩, rfl⟩
    · rintro ⟨k, hksrc, rfl⟩
      refine ⟨k, ?_, rfl⟩
      exact (sortStrings_perm _).mem_iff.mpr ((normalizeEnv_mem env k).mpr hksrc)

theorem Resolve_entries_keys_perm (hints : BuildHints) (env : List (String × String))
    (overrides : List (String × EnvOverride)) (h : env.isEmpty = false) :
    ((Resolve hints env overrides).entries.map (·.key)).Perm
      (sortStrings ((normalizeEnv env).map (·.1))) := by
  rw [Resolve_entries_eq hints env overrides h]
  have h1 := (sortEntries_perm
    ((sortStrings ((normalizeEnv env).map (·.1))).map (resolveEntry hints overrides))).map
    (fun e : ResolvedEnvVar => e.key)
  rw [List.map_map] at h1
  have h3 : (sortStrings ((normalizeEnv env).map (·.1))).map
      ((fun e : ResolvedEnvVar => e.key) ∘ resolveEntry hints overrides)
      = sortStrings ((normalizeEnv env).map (·.1)) := by
    have hcg : ∀ k ∈ sortStrings ((normalizeEnv env).map (·.1)),
        ((fun e : ResolvedEnvVar => e.key) ∘ resolveEntry hints overrides) k = id k :=
      fun k _ => resolveEntry_key hints overrides k
    rw [List.map_congr_left hcg, List.map_id]
  rw [h3] at h1
  exact h1

theorem Resolve_partition (hints : BuildHints) (env : List (String × String))
    (overrides : List (String × EnvOverride)) :
    ∀ e ∈ (Resolve hints env overrides).entries,
      ((e.scope = "build" ∨ e.scope = "both") ∧ e.secret = false →
        e.key ∈ (Resolve hints env overrides).buildArgs.map (·.1) ∧
        e.key ∉ (Resolve hints env overrides).buildSecrets.map (·.1)) ∧
      ((e.scope = "build" ∨ e.scope = "both") ∧ e.secret = true →
        e.key ∈ (Resolve hints env overrides).buildSecrets.map (·.1) ∧
        e.key ∉ (Resolve hints env overrides).buildArgs.map (·.1)) ∧
      (¬(e.scope = "build" ∨ e.scope = "both") →
        e.key ∉ (Resolve hints env overrides).buildArgs.map (·.1) ∧
        e.key ∉ (Resolve hints env overrides).buildSecrets.map (·.1)) := by
  by_cases henv : env.isEmpty
  · have henv' : env = [] := List.isEmpty_iff.mp henv
    subst henv'
    intro e he
    rw [Resolve] at he
    simp at he
  · have hf : env.isEmpty = false := Bool.eq_false_iff.mpr henv
    rw [Resolve_entries_eq hints env overrides hf, Resolve_buildArgs_eq hints env overrides hf,
      Resolve_buildSecrets_eq hints env overrides hf]
    intro e he
    have hargs := mem_map_fst_filterMap
      (fun k => if ((resolveEntry hints overrides k).scope = "build"
            || (resolveEntry hints overrides k).scope = "both")
          && !(resolveEntry hints overrides k).secret
        then some (k, (lookupAssoc (normalizeEnv env) k).getD "") else none)
      (fun k => ((resolveEntry hints overrides k).scope = "build"
            || (resolveEntry hints overrides k).scope = "both")
          && !(resolveEntry hints overrides k).secret)
      (fun k => (lookupAssoc (normalizeEnv env) k).getD "")
      (fun _ => rfl)
    have hsecs := mem_map_fst_filterMap
      (fun k => if ((resolveEntry hints overrides k).scope = "build"
            || (resolveEntry hints overrides k).scope = "both")
          && (resolveEntry hints overrides k).secret
        then some (k, (lookupAssoc (normalizeEnv env) k).getD "") else none)
      (fun k => ((resolveEntry hints overrides k).scope = "build"
            || (resolveEntry hints overrides k).scope = "both")
          && (resolveEntry hints overrides k).secret)
      (fun k => (lookupAssoc (normalizeEnv env) k).getD "")
      (fun _ => rfl)
    rcases List.mem_map.mp ((sortEntries_perm _).mem_iff.mp he) with ⟨k, hkK, hfk⟩
    have hkey : e.key = k := by rw [← hfk]; exact resolveEntry_key hints overrides k
    refine ⟨?_, ?_, ?_⟩
    · rintro ⟨hscope, hsec⟩
      constructor
      · rw [hargs]
        refine ⟨k, hkK, ?_, hkey⟩
        simp only [hfk]
        rcases hscope with h | h <;> simp [h, hsec]
      · intro hmem
        rw [hsecs] at hmem
        rcases hmem with ⟨k', hk', hck', hkk'⟩
        rw [hkey] at hkk'; subst hkk'
        simp only [hfk] at hck'
        simp [hsec] at hck'
    · rintro ⟨hscope, hsec⟩
      constructor
      · rw [hsecs]
        refine ⟨k, hkK, ?_, hkey⟩
        simp only [hfk]
        rcases hscope with h | h <;> simp [h, hsec]
      · intro hmem
        rw [hargs] at hmem
        rcases hmem with ⟨k', hk', hck', hkk'⟩
        rw [hkey] at hkk'; subst hkk'
        simp only [hfk] at hck'
        simp [hsec] at hck'
    · intro hscope
      constructor
      · intro hmem
        rw [hargs] at hmem
        rcases hmem with ⟨k', hk', hck', hkk'⟩
        rw [hkey] at hkk'; subst hkk'
        simp only [hfk] at hck'
        rw [Bool.and_eq_true] at hck'
        rcases hck' with ⟨hor, _⟩
        rw [Bool.or_eq_true] at hor
        rcases hor with h | h
        · exact hscope (Or.inl (of_decide_eq_true h))
        · exact hscope (Or.inr (of_decide_eq_true h))
      · intro hmem
        rw [hsecs] at hmem
        rcases hmem with ⟨k', hk', hck', hkk'⟩
        rw [hkey] at hkk'; subst hkk'
        simp only [hfk] at hck'
        rw [Bool.and_eq_true] at hck'
        rcases hck' with ⟨hor, _⟩
        rw [Bool.or_eq_true] at hor
        rcases hor with h | h
        · exact hscope (Or.inl (of_decide_eq_true h))
        · exact hscope (Or.inr (of_decide_eq_true h))

/-- C4: environment-plan output contract. For every hint set, env mapping and
override mapping, the planner's entries list is strictly sorted ascending by
key; a key has an entry exactly when it is the non-empty trim of some env
key; and every entry with final scope `build` or `both` lands in exactly one
of buildArgs (when not secret) or buildSecrets (when secret), while any other
scope lands in neither map. -/
theorem envplan_output_contract (hints : BuildHints) (env : List (String × String))
    (overrides : List (String × EnvOverride)) :
    List.Pairwise strLtP ((Resolve hints env overrides).entries.map (·.key)) ∧
    (∀ k : String, (∃ e ∈ (Resolve hints env overrides).entries, e.key = k) ↔
      (k ≠ "" ∧ ∃ kv ∈ env, goTrim kv.1 = k)) ∧
    (∀ e ∈ (Resolve hints env overrides).entries,
      ((e.scope = "build" ∨ e.scope = "both") ∧ e.secret = false →
        e.key ∈ (Resolve hints env overrides).buildArgs.map (·.1) ∧
        e.key ∉ (Resolve hints env overrides).buildSecrets.map (·.1)) ∧
      ((e.scope = "build" ∨ e.scope = "both") ∧ e.secret = true →
        e.key ∈ (Resolve hints env overrides).buildSecrets.map (·.1) ∧
        e.key ∉ (Resolve hints env overrides).buildArgs.map (·.1)) ∧
      (¬(e.scope = "build" ∨ e.scope = "both") →
        e.key ∉ (Resolve hints env overrides).buildArgs.map (·.1) ∧
        e.key ∉ (Resolve hints env overrides).buildSecrets.map (·.1))) := by
  refine ⟨?_, ?_, Resolve_partition hints env overrides⟩
  · by_cases henv : env.isEmpty
    · have henv' : env = [] := List.isEmpty_iff.mp henv
      subst henv'
      rw [Resolve]
      simp
    · have hf : env.isEmpty = false := Bool.eq_false_iff.mpr henv
      have hle : List.Pairwise entryLeP (Resolve hints env overrides).entries := by
        rw [Resolve_entries_eq hints env overrides hf]
        exact sortEntries_sorted _
      have hle' : List.Pairwise strLeP ((Resolve hints env overrides).entries.map (·.key)) :=
        List.pairwise_map.mpr hle
      have hnd : ((Resolve hints env overrides).entries.map (·.key)).Nodup := by
        rw [(Resolve_entries_keys_perm hints env overrides hf).nodup_iff,
          (sortStrings_perm _).nodup_iff]
        exact normalizeEnv_nodup env
      have hnd' : List.Pairwise (fun a b : String => a ≠ b)
          ((Resolve hints env overrides).entries.map (·.key)) := hnd
      exact hle'.and hnd'
  · intro k
    constructor
    · rintro ⟨e, he, rfl⟩
      rcases (Resolve_entries_mem hints env overrides e).mp he with ⟨k', hsrc, rfl⟩
      rw [resolveEntry_key]
      rcases hsrc with ⟨kv, hkv, hgt, hne⟩
      exact ⟨hne, kv, hkv, hgt⟩
    · rintro ⟨hne, kv, hkv, hgt⟩
      refine ⟨resolveEntry hints overrides k, ?_, resolveEntry_key hints overrides k⟩
      exact (Resolve_entries_mem hints env overrides _).mpr ⟨k, ⟨kv, hkv, hgt, hne⟩, rfl⟩

/-- Witness for C4 at a concrete plan: the key "A" of the singleton env gets
an entry, and the entries keys are strictly sorted. -/
theorem envplan_output_contract_witness :
    (∃ e ∈ (Resolve ⟨"", []⟩ [("A", "1")] []).entries, e.key = "A") ∧
    List.Pairwise strLtP ((Resolve ⟨"", []⟩ [("A", "1")] []).entries.map (·.key)) :=
  ⟨((envplan_output_contract ⟨"", []⟩ [("A", "1")] []).2.1 "A").mpr
      ⟨by decide, ("A", "1"), List.mem_cons_self _ _, by decide⟩,
    (envplan_output_contract ⟨"", []⟩ [("A", "1")] []).1⟩

/-- C3: override application in the environment planner (the override step of
`Resolve` is modelled from the spec, since the two-parameter `Resolve` in
`resolver.go` lacks the `envOverrides` argument its callers and tests pass).
For every entry whose key has an override: a non-empty override scope replaces
the entry's scope with reason suffix `+override-scope`; a non-nil override
secret flag replaces the entry's secret flag with reason suffix
`+override-secret`; and a build-scoped entry whose final secret flag is true
lands in buildSecrets and not in buildArgs. The spec's Dockerfile-ARG example
evaluates to exactly the plan the spec demands. -/
theorem envplan_overrides :
    (∀ (hints : BuildHints) (env : List (String × String))
        (ovs : List (String × EnvOverride)) (o : EnvOverride) (e : ResolvedEnvVar),
      e ∈ (Resolve hints env ovs).entries →
      lookupAssoc ovs e.key = some o →
      (o.scope ≠ "" → e.scope = o.scope ∧ strContains e.reason "+override-scope" = true) ∧
      (∀ b, o.secret = some b → e.secret = b ∧
        strContains e.reason "+override-secret" = true) ∧
      ((e.scope = "build" ∨ e.scope = "both") ∧ e.secret = true →
        e.key ∈ (Resolve hints env ovs).buildSecrets.map (·.1) ∧
        e.key ∉ (Resolve hints env ovs).buildArgs.map (·.1))) ∧
    Resolve ⟨"FROM SCRATCH\nARG API_TOKEN\n", []⟩ [("API_TOKEN", "abc123")]
        [("API_TOKEN", ⟨"", some true⟩)] =
      ⟨[], [("API_TOKEN", "abc123")],
        [⟨"API_TOKEN", "build", true, "dockerfile-arg+override-secret"⟩]⟩ := by
  constructor
  · intro hints env ovs o e he hlk
    have hpart := Resolve_partition hints env ovs e he
    rcases (Resolve_entries_mem hints env ovs e).mp he with ⟨k, hsrc, hfk⟩
    have hkey : e.key = k := by rw [hfk]; exact resolveEntry_key hints ovs k
    rw [hkey] at hlk
    have hre0 : resolveEntry hints ovs k = applyEnvOverride (lookupAssoc ovs k) k
        (classifyScope (goToUpper k) hints).1
        (if strHasPrefix (classifyScope (goToUpper k) hints).2 "dockerfile-arg" then false
         else classifySecret (goToUpper k))
        (classifyScope (goToUpper k) hints).2 := rfl
    rw [hlk] at hre0
    refine ⟨?_, ?_, hpart.2.1⟩
    · intro hns
      rw [hfk, hre0]
      exact (applyEnvOverride_spec o k _ _ _).1 hns
    · intro b hb
      rw [hfk, hre0]
      exact (applyEnvOverride_spec o k _ _ _).2 b hb
  · decide

/-- Witness for C3 at the spec's Dockerfile-ARG example: the override forces
the secret flag and marks the reason. -/
theorem envplan_overrides_witness :
    (⟨"API_TOKEN", "build", true, "dockerfile-arg+override-secret"⟩
        : ResolvedEnvVar).secret = true ∧
    strContains "dockerfile-arg+override-secret" "+override-secret" = true :=
  (envplan_overrides.1 ⟨"FROM SCRATCH\nARG API_TOKEN\n", []⟩ [("API_TOKEN", "abc123")]
      [("API_TOKEN", ⟨"", some true⟩)] ⟨"", some true⟩
      ⟨"API_TOKEN", "build", true, "dockerfile-arg+override-secret"⟩
      (by decide) (by decide)).2.1 true rfl

/-! ## Job-creation handler theorems -/

/-- C8: HTTP mapping of `CreateJobHandler`. A persistence-store failure
responds 500 (in both the auto-build and the plain path); a clone failure and
either checkout failure respond 400; an auto-detect (inspection) failure
responds 500, not the claimed 400; and when every step succeeds the response
is 201 carrying the stored job. -/
theorem createjob_error_mapping (job : BuildJob) (allowed : AllowedCommands)
    (eff : CreateJobEffects) :
    (job.buildConfig.isAutoBuild = false → eff.createOk = false →
      CreateJobHandler job allowed eff = (500, none)) ∧
    (job.buildConfig.isAutoBuild = false → eff.createOk = true →
      CreateJobHandler job allowed eff = (201, some job)) ∧
    (job.buildConfig.isAutoBuild = true → eff.tempDirOk = false →
      CreateJobHandler job allowed eff = (500, none)) ∧
    (job.buildConfig.isAutoBuild = true → eff.tempDirOk = true → eff.cloneOk = false →
      CreateJobHandler job allowed eff = (400, none)) ∧
    (job.buildConfig.isAutoBuild = true → eff.tempDirOk = true → eff.cloneOk = true →
      job.sourceInfo.ref ≠ "" → eff.refCheckoutOk = false →
      CreateJobHandler job allowed eff = (400, none)) ∧
    (job.buildConfig.isAutoBuild = true → eff.tempDirOk = true → eff.cloneOk = true →
      (job.sourceInfo.ref = "" ∨ eff.refCheckoutOk = true) →
      job.sourceInfo.commitSha ≠ "" → eff.shaCheckoutOk = false →
      CreateJobHandler job allowed eff = (400, none)) ∧
    (job.buildConfig.isAutoBuild = true → eff.tempDirOk = true → eff.cloneOk = true →
      (job.sourceInfo.ref = "" ∨ eff.refCheckoutOk = true) →
      (job.sourceInfo.commitSha = "" ∨ eff.shaCheckoutOk = true) →
      ∀ msg, AutoDetectBuildConfig eff.fs
          (if job.sourceInfo.workingDir = "" then eff.tempDirPath
           else joinPath eff.tempDirPath job.sourceInfo.workingDir) allowed = .error msg →
      CreateJobHandler job allowed eff = (500, none)) ∧
    (job.buildConfig.isAutoBuild = true → eff.tempDirOk = true → eff.cloneOk = true →
      (job.sourceInfo.ref = "" ∨ eff.refCheckoutOk = true) →
      (job.sourceInfo.commitSha = "" ∨ eff.shaCheckoutOk = true) →
      ∀ d, AutoDetectBuildConfig eff.fs
          (if job.sourceInfo.workingDir = "" then eff.tempDirPath
           else joinPath eff.tempDirPath job.sourceInfo.workingDir) allowed = .ok d →
      ((eff.createOk = false → CreateJobHandler job allowed eff = (500, none)) ∧
       (eff.createOk = true → ∃ j, CreateJobHandler job allowed eff = (201, some j)))) := by
  refine ⟨?_, ?_, ?_, ?_, ?_, ?_, ?_, ?_⟩
  · intro hauto hcr
    simp [CreateJobHandler, hauto, hcr]
  · intro hauto hcr
    simp [CreateJobHandler, hauto, hcr]
  · intro hauto htd
    simp [CreateJobHandler, hauto, htd]
  · intro hauto htd hcl
    simp [CreateJobHandler, hauto, htd, hcl]
  · intro hauto htd hcl href hrefok
    simp [CreateJobHandler, hauto, htd, hcl, href, hrefok]
  · intro hauto htd hcl href hsha hshaok
    rcases href with h | h <;>
      simp [CreateJobHandler, hauto, htd, hcl, h, hsha, hshaok]
  · intro hauto htd hcl href hsha msg hd
    rcases href with h1 | h1 <;> rcases hsha with h2 | h2 <;>
      simp [CreateJobHandler, hauto, htd, hcl, h1, h2, hd]
  · intro hauto htd hcl href hsha d hd
    constructor
    · intro hcr
      rcases href with h1 | h1 <;> rcases hsha with h2 | h2 <;>
        simp [CreateJobHandler, hauto, htd, hcl, h1, h2, hd, hcr]
    · intro hcr
      refine ⟨{ job with buildConfig :=
          { isAutoBuild := d.isAutoBuild
            runtime := d.runtime
            version := d.version
            prebuildCommand := d.prebuildCommand
            buildCommand := d.buildCommand
            runCommand := d.runCommand
            network := ""
            timeoutSeconds := job.buildConfig.timeoutSeconds
            resourceLimits := job.buildConfig.resourceLimits
            env := []
            envOverrides := []
            resolvedEnvPlan := []
            dockerfileContent := d.dockerfileContent } }, ?_⟩
      rcases href with h1 | h1 <;> rcases hsha with h2 | h2 <;>
        simp [CreateJobHandler, hauto, htd, hcl, h1, h2, hd, hcr]

/-- Counterexample for C8 as claimed: with every external effect succeeding
but an empty cloned tree, auto-detection fails (`unknown` runtime) and the
handler responds 500, not the 400 the claim assigns to inspection failures. -/
theorem createjob_error_mapping_cex :
    CreateJobHandler
      ⟨"j1", "p1", "u1", "git", ⟨"https://example.com/r.git", "", "", ""⟩, [],
        ⟨true, "", "", "", "", "", "bridge", 300, ⟨1, 512⟩, [], [], [], ""⟩, "queued", ""⟩
      ⟨[], [], []⟩ ⟨true, "/tmp/inspect", true, true, true, emptyFS, true⟩
      = (500, none) ∧ (500 : Nat) ≠ 400 := by
  constructor
  · decide
  · decide

/-- Witness for C8: a store failure on a plain (non-auto-build) job responds
500. -/
theorem createjob_error_mapping_witness :
    CreateJobHandler
      ⟨"j2", "p2", "u2", "git", ⟨"https://example.com/r.git", "", "", ""⟩, [],
        ⟨false, "", "", "", "", "", "bridge", 300, ⟨1, 512⟩, [], [], [], ""⟩, "queued", ""⟩
      ⟨[], [], []⟩ ⟨true, "", true, true, true, emptyFS, false⟩ = (500, none) :=
  (createjob_error_mapping
      ⟨"j2", "p2", "u2", "git", ⟨"https://example.com/r.git", "", "", ""⟩, [],
        ⟨false, "", "", "", "", "", "bridge", 300, ⟨1, 512⟩, [], [], [], ""⟩, "queued", ""⟩
      ⟨[], [], []⟩ ⟨true, "", true, true, true, emptyFS, false⟩).1 rfl rfl

/-- C10: the pre-synthesis frame effect. When `isAutoBuild` is set and the
pre-synthesis steps succeed, the stored job's `buildConfig` is replaced
wholesale: only the detected runtime, version, commands and Dockerfile
content plus the caller's `timeoutSeconds` and `resourceLimits` survive;
`network`, `env`, `envOverrides` and `resolvedEnvPlan` are reset to their
zero values, so the stored job trips the worker's non-empty-network guard. -/
theorem autobuild_frame_effect (job : BuildJob) (allowed : AllowedCommands)
    (eff : CreateJobEffects) (d : ADBuildConfig) :
    job.buildConfig.isAutoBuild = true →
    eff.tempDirOk = true → eff.cloneOk = true →
    (job.sourceInfo.ref = "" ∨ eff.refCheckoutOk = true) →
    (job.sourceInfo.commitSha = "" ∨ eff.shaCheckoutOk = true) →
    AutoDetectBuildConfig eff.fs
      (if job.sourceInfo.workingDir = "" then eff.tempDirPath
       else joinPath eff.tempDirPath job.sourceInfo.workingDir) allowed = .ok d →
    eff.createOk = true →
    CreateJobHandler job allowed eff =
      (201, some { job with buildConfig :=
        { isAutoBuild := d.isAutoBuild
          runtime := d.runtime
          version := d.version
          prebuildCommand := d.prebuildCommand
          buildCommand := d.buildCommand
          runCommand := d.runCommand
          network := ""
          timeoutSeconds := job.buildConfig.timeoutSeconds
          resourceLimits := job.buildConfig.resourceLimits
          env := []
          envOverrides := []
          resolvedEnvPlan := []
          dockerfileContent := d.dockerfileContent } }) ∧
    (∀ j, CreateJobHandler job allowed eff = (201, some j) →
      workerRejectsNetwork j.buildConfig = true) := by
  intro hauto htd hcl href hsha hd hcr
  have hmain : CreateJobHandler job allowed eff =
      (201, some { job with buildConfig :=
        { isAutoBuild := d.isAutoBuild
          runtime := d.runtime
          version := d.version
          prebuildCommand := d.prebuildCommand
          buildCommand := d.buildCommand
          runCommand := d.runCommand
          network := ""
          timeoutSeconds := job.buildConfig.timeoutSeconds
          resourceLimits := job.buildConfig.resourceLimits
          env := []
          envOverrides := []
          resolvedEnvPlan := []
          dockerfileContent := d.dockerfileContent } }) := by
    rcases href with h1 | h1 <;> rcases hsha with h2 | h2 <;>
      simp [CreateJobHandler, hauto, htd, hcl, h1, h2, hd, hcr]
  refine ⟨hmain, ?_⟩
  intro j hj
  rw [hmain] at hj
  injection hj with hj1 hj2
  injection hj2 with hj2
  subst hj2
  rfl

/-- Witness for C10: an auto-build job over a tree holding only `index.html`
is stored with the detected static configuration, zeroed network and env
fields, and is rejected by the worker's network guard. -/
theorem autobuild_frame_effect_witness :
    CreateJobHandler
      ⟨"j3", "p3", "u3", "git", ⟨"https://example.com/r.git", "", "", ""⟩, [],
        ⟨true, "", "", "", "", "", "bridge", 300, ⟨1, 512⟩,
          [("A", "1")], [("A", ⟨"build", some true⟩)], [], "FROM x"⟩, "queued", ""⟩
      ⟨[], [], []⟩
      ⟨true, "/t",
        true, true, true,
        ⟨fun p => p == "/t/index.html", fun _ => none, fun _ => none, fun _ => none,
          fun _ => []⟩, true⟩
      = (201, some
        ⟨"j3", "p3", "u3", "git", ⟨"https://example.com/r.git", "", "", ""⟩, [],
          ⟨true, "static", "latest", "", "", "", "", 300, ⟨1, 512⟩, [], [], [],
            generateStaticDockerfile⟩, "queued", ""⟩) ∧
    workerRejectsNetwork
      (⟨true, "static", "latest", "", "", "", "", 300, ⟨1, 512⟩, [], [], [],
        generateStaticDockerfile⟩ : BuildConfig) = true := by
  have happ := autobuild_frame_effect
    ⟨"j3", "p3", "u3", "git", ⟨"https://example.com/r.git", "", "", ""⟩, [],
      ⟨true, "", "", "", "", "", "bridge", 300, ⟨1, 512⟩,
        [("A", "1")], [("A", ⟨"build", some true⟩)], [], "FROM x"⟩, "queued", ""⟩
    ⟨[], [], []⟩
    ⟨true, "/t",
      true, true, true,
      ⟨fun p => p == "/t/index.html", fun _ => none, fun _ => none, fun _ => none,
        fun _ => []⟩, true⟩
    ⟨true, "static", "latest", "", "", "", generateStaticDockerfile⟩
    rfl rfl rfl (Or.inl rfl) (Or.inl rfl) (by rfl) rfl
  exact ⟨happ.1, by decide⟩

/-! ## Callback reporter theorems -/

theorem callbackRetryLoop_requests_le (outcomes : Nat → CallbackAttempt)
    (jitters : Nat → ℚ) :
    ∀ (fuel i : Nat) (le : CallbackAttempt),
      (callbackRetryLoop outcomes jitters fuel i le).requests ≤ fuel := by
  intro fuel
  induction fuel with
  | zero => intro i le; exact Nat.le_refl 0
  | succ fuel ih =>
    intro i le
    rw [callbackRetryLoop]
    by_cases h0 : callbackSucceeded (outcomes i) = true
    · simp [h0]
    · have h0' : callbackSucceeded (outcomes i) = false := Bool.eq_false_iff.mpr h0
      simp only [h0', Bool.false_eq_true, if_false]
      exact Nat.succ_le_succ (ih (i + 1) (outcomes i))

theorem callbackRetryLoop_sleeps_length (outcomes : Nat → CallbackAttempt)
    (jitters : Nat → ℚ) :
    ∀ (fuel i : Nat) (le : CallbackAttempt),
      (callbackRetryLoop outcomes jitters fuel i le).sleeps.length
        = (callbackRetryLoop outcomes jitters fuel i le).requests := by
  intro fuel
  induction fuel with
  | zero => intro i le; rfl
  | succ fuel ih =>
    intro i le
    rw [callbackRetryLoop]
    by_cases h0 : callbackSucceeded (outcomes i) = true
    · simp [h0]
    · have h0' : callbackSucceeded (outcomes i) = false := Bool.eq_false_iff.mpr h0
      simp only [h0', Bool.false_eq_true, if_false, List.length_cons]
      rw [ih (i + 1) (outcomes i)]

theorem callbackRetryLoop_sleeps_getD (outcomes : Nat → CallbackAttempt)
    (jitters : Nat → ℚ) :
    ∀ (fuel i : Nat) (le : CallbackAttempt) (n : Nat),
      n < (callbackRetryLoop outcomes jitters fuel i le).sleeps.length →
      (callbackRetryLoop outcomes jitters fuel i le).sleeps.getD n 0
        = retrySleep (i + n) (jitters (i + n)) := by
  intro fuel
  induction fuel with
  | zero => intro i le n hn; simp [callbackRetryLoop] at hn
  | succ fuel ih =>
    intro i le n hn
    rw [callbackRetryLoop] at hn ⊢
    by_cases h0 : callbackSucceeded (outcomes i) = true
    · simp only [h0, if_true] at hn ⊢
      have hn0 : n = 0 := by simpa using Nat.lt_one_iff.mp (by simpa using hn)
      subst hn0
      simp
    · have h0' : callbackSucceeded (outcomes i) = false := Bool.eq_false_iff.mpr h0
      simp only [h0', Bool.false_eq_true, if_false] at hn ⊢
      cases n with
      | zero => simp
      | succ n =>
        simp only [List.length_cons, Nat.succ_lt_succ_iff] at hn
        simp only [List.getD_cons_succ]
        rw [ih (i + 1) (outcomes i) n hn]
        rw [show i + 1 + n = i + (n + 1) from by omega]

theorem callbackRetryLoop_first_success (outcomes : Nat → CallbackAttempt)
    (jitters : Nat → ℚ) :
    ∀ (fuel i : Nat) (le : CallbackAttempt) (j : Nat), i ≤ j → j < i + fuel →
      (∀ k, i ≤ k → k < j → callbackSucceeded (outcomes k) = false) →
      callbackSucceeded (outcomes j) = true →
      (callbackRetryLoop outcomes jitters fuel i le).result = .ok () ∧
      (callbackRetryLoop outcomes jitters fuel i le).requests = j - i + 1 := by
  intro fuel
  induction fuel with
  | zero => intro i le j hij hlt; exact absurd hlt (by omega)
  | succ fuel ih =>
    intro i le j hij hlt hpre hsucc
    rw [callbackRetryLoop]
    by_cases h0 : callbackSucceeded (outcomes i) = true
    · have hji : j = i := by
        by_contra hne
        have hilt : i < j := lt_of_le_of_ne hij (Ne.symm hne)
        have hf := hpre i (Nat.le_refl i) hilt
        rw [hf] at h0; cases h0
      subst hji
      simp [h0]
    · have h0' : callbackSucceeded (outcomes i) = false := Bool.eq_false_iff.mpr h0
      have hilt : i < j := by
        rcases Nat.eq_or_lt_of_le hij with rfl | h
        · rw [hsucc] at h0'; cases h0'
        · exact h
      have hrec := ih (i + 1) (outcomes i) j hilt (by omega)
        (fun k hk1 hk2 => hpre k (by omega) hk2) hsucc
      simp only [h0', Bool.false_eq_true, if_false]
      refine ⟨hrec.1, ?_⟩
      have := hrec.2
      simp only [this]
      omega

theorem callbackRetryLoop_exhausted (outcomes : Nat → CallbackAttempt)
    (jitters : Nat → ℚ) :
    ∀ (fuel i : Nat) (le : CallbackAttempt), 1 ≤ fuel →
      (∀ k, i ≤ k → k < i + fuel → callbackSucceeded (outcomes k) = false) →
      (callbackRetryLoop outcomes jitters fuel i le).requests = fuel ∧
      (callbackRetryLoop outcomes jitters fuel i le).result
        = .error (outcomes (i + fuel - 1)) := by
  intro fuel
  induction fuel with
  | zero => intro i le h1; exact absurd h1 (by omega)
  | succ fuel ih =>
    intro i le _ hall
    rw [callbackRetryLoop]
    have h0 : callbackSucceeded (outcomes i) = false :=
      hall i (Nat.le_refl i) (by omega)
    simp only [h0, Bool.false_eq_true, if_false]
    cases fuel with
    | zero =>
      refine ⟨rfl, ?_⟩
      rw [show (callbackRetryLoop outcomes jitters 0 (i + 1) (outcomes i)).result
          = Except.error (outcomes i) from rfl]
      rw [show i + 1 - 1 = i from by omega]
    | succ fuel =>
      have hrec := ih (i + 1) (outcomes i) (by omega)
        (fun k hk1 hk2 => hall k (by omega) (by omega))
      refine ⟨by rw [hrec.1], ?_⟩
      rw [hrec.2, show i + 1 + (fuel + 1) - 1 = i + (fuel + 1 + 1) - 1 from by omega]

/-- C9: retry policy of the callback reporter. An empty callback URL returns
success without a request. Otherwise (for any jitter draws in `[0,1)`): at
most six requests are made (one initial POST plus at most five retries); one
sleep precedes each retry; the sleep before retry `n+1` is `2·2^n` seconds
scaled by a factor in `[0.8, 1.2]`; the first attempt whose response status
is in `[200,300)` ends the loop successfully; and when all six attempts fail
(transport error or non-2xx) the last attempt's error is returned. -/
theorem reporter_retry_policy (url : String) (outcomes : Nat → CallbackAttempt)
    (jitters : Nat → ℚ) (hj : ∀ i, 0 ≤ jitters i ∧ jitters i < 1) :
    (ReportResult "" outcomes jitters = ⟨0, [], .ok ()⟩) ∧
    (url ≠ "" →
      (ReportResult url outcomes jitters).requests ≤ 6 ∧
      (ReportResult url outcomes jitters).sleeps.length
        = (ReportResult url outcomes jitters).requests - 1 ∧
      (∀ n, n < (ReportResult url outcomes jitters).sleeps.length →
        (ReportResult url outcomes jitters).sleeps.getD n 0
          = 2 * 2 ^ n * (1 + (jitters (n + 1) * (4 / 10) - 2 / 10)) ∧
        (4 / 5 : ℚ) ≤ 1 + (jitters (n + 1) * (4 / 10) - 2 / 10) ∧
        1 + (jitters (n + 1) * (4 / 10) - 2 / 10) ≤ 6 / 5) ∧
      (∀ j, j ≤ 5 → (∀ k, k < j → callbackSucceeded (outcomes k) = false) →
        callbackSucceeded (outcomes j) = true →
        (ReportResult url outcomes jitters).result = .ok () ∧
        (ReportResult url outcomes jitters).requests = j + 1) ∧
      ((∀ k, k ≤ 5 → callbackSucceeded (outcomes k) = false) →
        (ReportResult url outcomes jitters).requests = 6 ∧
        (ReportResult url outcomes jitters).result = .error (outcomes 5))) := by
  refine ⟨rfl, ?_⟩
  intro hurl
  by_cases h0 : callbackSucceeded (outcomes 0) = true
  · have hrr : ReportResult url outcomes jitters = ⟨1, [], .ok ()⟩ := by
      rw [ReportResult, if_neg hurl, if_pos h0]
    have hreq : (ReportResult url outcomes jitters).requests = 1 := by rw [hrr]
    have hsl : (ReportResult url outcomes jitters).sleeps = [] := by rw [hrr]
    have hres : (ReportResult url outcomes jitters).result = .ok () := by rw [hrr]
    refine ⟨by omega, by rw [hsl, hreq]; rfl, ?_, ?_, ?_⟩
    · intro n hn
      rw [hsl] at hn
      exact absurd hn (by simp)
    · intro j hj5 hpre hsucc
      refine ⟨hres, ?_⟩
      cases j with
      | zero => exact hreq
      | succ j =>
        have := hpre 0 (Nat.succ_pos j)
        rw [this] at h0; cases h0
    · intro hall
      have := hall 0 (by omega)
      rw [this] at h0; cases h0
  · have h0' : callbackSucceeded (outcomes 0) = false := Bool.eq_false_iff.mpr h0
    have hrr : ReportResult url outcomes jitters =
        ⟨(callbackRetryLoop outcomes jitters 5 1 (outcomes 0)).requests + 1,
         (callbackRetryLoop outcomes jitters 5 1 (outcomes 0)).sleeps,
         (callbackRetryLoop outcomes jitters 5 1 (outcomes 0)).result⟩ := by
      rw [ReportResult, if_neg hurl, if_neg h0]
    have hreq : (ReportResult url outcomes jitters).requests
        = (callbackRetryLoop outcomes jitters 5 1 (outcomes 0)).requests + 1 := by rw [hrr]
    have hsl : (ReportResult url outcomes jitters).sleeps
        = (callbackRetryLoop outcomes jitters 5 1 (outcomes 0)).sleeps := by rw [hrr]
    have hres : (ReportResult url outcomes jitters).result
        = (callbackRetryLoop outcomes jitters 5 1 (outcomes 0)).result := by rw [hrr]
    refine ⟨?_, ?_, ?_, ?_, ?_⟩
    · have := callbackRetryLoop_requests_le outcomes jitters 5 1 (outcomes 0)
      omega
    · rw [hsl, hreq, callbackRetryLoop_sleeps_length outcomes jitters 5 1 (outcomes 0)]
      omega
    · intro n hn
      rw [hsl] at hn ⊢
      have hget := callbackRetryLoop_sleeps_getD outcomes jitters 5 1 (outcomes 0) n hn
      rcases hj (n + 1) with ⟨hj0, hj1⟩
      refine ⟨?_, by linarith, by linarith⟩
      rw [hget, show 1 + n = n + 1 from by omega, retrySleep, Nat.add_sub_cancel]
    · intro j hj5 hpre hsucc
      have hj1 : 1 ≤ j := by
        cases j with
        | zero => rw [hsucc] at h0'; cases h0'
        | succ j => omega
      have hrec := callbackRetryLoop_first_success outcomes jitters 5 1 (outcomes 0) j
        hj1 (by omega) (fun k hk1 hk2 => hpre k hk2) hsucc
      rw [hres, hreq]
      refine ⟨hrec.1, ?_⟩
      have := hrec.2
      omega
    · intro hall
      have hrec := callbackRetryLoop_exhausted outcomes jitters 5 1 (outcomes 0)
        (by omega) (fun k hk1 hk2 => hall k (by omega))
      rw [hres, hreq]
      exact ⟨by omega, hrec.2⟩

/-- Witness for C9: a first-attempt 204 response succeeds with exactly one
request, and the empty URL disables the reporter. -/
theorem reporter_retry_policy_witness :
    (ReportResult "http://cb" (fun _ => .response 204) (fun _ => 0)).result = .ok () ∧
    (ReportResult "http://cb" (fun _ => .response 204) (fun _ => 0)).requests = 1 ∧
    ReportResult "" (fun _ => .response 204) (fun _ => 0) = ⟨0, [], .ok ()⟩ := by
  have happ := reporter_retry_policy "http://cb" (fun _ => .response 204) (fun _ => 0)
    (fun i => ⟨le_refl 0, by norm_num⟩)
  have hmain := (happ.2 (by decide)).2.2.2.1 0 (by omega)
    (fun k hk => absurd hk (Nat.not_lt_zero k)) (by decide)
  exact ⟨hmain.1, hmain.2, happ.1⟩

end Hubfly
